import Mathlib

/-!
Verification of the Spreadsheet Operation Engine of the Report_Gen
repository (backend/services/excel_operations.py,
backend/services/multi_sheet_handler.py, backend/services/full_data_agent.py)
against its natural-language specification.

The embedding keeps the Python structure: DataFrames become `Df` (a column
list plus a row list), worksheet cells become `Cell` (value plus style),
pandas/openpyxl calls are translated call-by-call.  A Python function that
can fall through to `return None` or let an exception escape is embedded
with an `Option` result; an exception that the source catches locally is
collapsed to the behaviour the handler produces (documented per function).
Python numbers are modelled as rationals: none of the verified claims
depends on binary floating-point rounding.
-/

namespace ReportGen

/-- A cell value of an object-dtype pandas column: a string, a number, or a
missing value (None / NaN collapsed to one constructor). -/
inductive Value
  | str (s : String)
  | num (q : Rat)
  | null
deriving DecidableEq, Repr

/-- pandas elementwise equality (`series == value`) on object data: NaN is
unequal to everything, itself included, and values of different types are
unequal. -/
def valEq : Value → Value → Bool
  | .str a, .str b => a == b
  | .num a, .num b => a == b
  | _, _ => false

/-- `pd.isna` on a single value. -/
def pdIsna : Value → Bool
  | .null => true
  | _ => false

/-- Python `str()` / pandas `astype(str)` rendering as far as the claims
need it: strings are themselves, NaN renders as "nan" (astype(str)
semantics), integers render without a fractional part. -/
def valToStr : Value → String
  | .str s => s
  | .num q => if q.den == 1 then toString q.num else toString q
  | .null => "nan"

/-- Case-insensitive substring test, modelling
`str.contains(..., case=False)` and Python `a.lower() in b.lower()`. -/
def strContainsCI (hay need : String) : Bool :=
  let h := hay.toLower.toList
  let n := need.toLower.toList
  (List.range (h.length + 1)).any (fun i => n.isPrefixOf (h.drop i))

/-- Digit-string to number; `none` when empty or a non-digit appears. -/
def parseDigits (cs : List Char) : Option Nat :=
  if cs.isEmpty then none
  else
    cs.foldl
      (fun acc c =>
        match acc with
        | none => none
        | some a => if c.isDigit then some (a * 10 + (c.toNat - 48)) else none)
      (some 0)

/-- Strip leading and trailing whitespace (Python `str.strip`, the
whitespace tolerance of `float()`/`int()`). -/
def trimChars (cs : List Char) : List Char :=
  ((cs.dropWhile (fun c => c.isWhitespace)).reverse.dropWhile
    (fun c => c.isWhitespace)).reverse

/-- Model of Python `float(str)`: optional sign, digits, optional fractional
part.  Any other string raises, i.e. returns `none`.  (Exotic accepted
spellings such as "1e3", "inf" are out of the claims' scope and modelled as
failures.) -/
def parsePyFloat (s : String) : Option Rat :=
  let cs := trimChars s.toList
  let signed :=
    match cs with
    | '-' :: rest => (true, rest)
    | '+' :: rest => (false, rest)
    | _ => (false, cs)
  let body := signed.2
  let ip := body.takeWhile (fun c => c ≠ '.')
  let rest := body.dropWhile (fun c => c ≠ '.')
  let mag : Option Rat :=
    match rest with
    | [] => (parseDigits ip).map (fun n => (n : Rat))
    | '.' :: frac =>
        if ip.isEmpty && frac.isEmpty then none
        else
          match (if ip.isEmpty then some 0 else parseDigits ip),
                (if frac.isEmpty then some 0 else parseDigits frac) with
          | some i, some f => some ((i : Rat) + (f : Rat) / ((10 : Rat) ^ frac.length))
          | _, _ => none
    | _ => none
  mag.map (fun r => if signed.1 then -r else r)

/-- Python `float(value)` applied to a cell: numbers pass through, strings
are parsed, anything else raises (`none`). -/
def valToFloat : Value → Option Rat
  | .num q => some q
  | .str s => parsePyFloat s
  | .null => none

/-- The operator of a condition dict, after intent parsing.  The source
recognises the spellings case-insensitively; the constructor is the
canonical form. -/
inductive CondOp
  | eq | ne | gt | lt | ge | le | contains | isin
  | topN | bottomN | isNull | dateInMonth | dateInPrevMonth
deriving DecidableEq, Repr

/-- The `value` field of a condition dict: absent, a scalar, or a list. -/
inductive CondVal
  | noval
  | scalar (v : Value)
  | list (vs : List Value)
deriving DecidableEq, Repr

/-- A condition dict `{operator, value}`. -/
structure Condition where
  op : CondOp
  val : CondVal
deriving DecidableEq, Repr

/-- A condition argument as received from the spec author: a dict or a bare
value (the sources treat a non-dict condition as a simple equality). -/
inductive Cond
  | dict (c : Condition)
  | simple (v : Value)
deriving DecidableEq, Repr

/-- Pairwise ordering used by the pandas comparison operators: defined for
two numbers or two strings, anything else raises. -/
def valOrd : Value → Value → Option Ordering
  | .num a, .num b => some (compare a b)
  | .str a, .str b => some (compare a b)
  | _, _ => none

/-- Turn an `Ordering` into the boolean a comparison operator yields. -/
def ordToBool (op : CondOp) (o : Ordering) : Bool :=
  match op with
  | .gt => o == .gt
  | .lt => o == .lt
  | .ge => o != .lt
  | .le => o != .gt
  | _ => false

/-- Equality used by `Series.isin`: unlike `==`, pandas' isin matches a
missing value against a missing value in the probe list. -/
def isinEq : Value → Value → Bool
  | .null, .null => true
  | a, b => valEq a b

/-- The operators `ExcelOperations._apply_filter` and
`ExcelOperations._check_condition_mask` dispatch on; any other operator
falls through every branch of those functions. -/
def filterOpRecognized : CondOp → Bool
  | .eq | .ne | .gt | .lt | .ge | .le | .contains | .isin => true
  | _ => false

/-- Elementwise evaluation of one pandas series comparison, shared by
`ExcelOperations._apply_filter` and `ExcelOperations._check_condition_mask`
(their operator dispatches are textually identical).  `none` models a
raised exception (e.g. ordering a string against a number, `isin` with a
non-list probe).  A NaN element compares `False` under every ordering
operator and under `==`, `True` under `!=`, mirroring pandas. -/
def seriesElemMatch (op : CondOp) (target : CondVal) (v : Value) : Option Bool :=
  match op with
  | .eq =>
      match target with
      | .scalar t => some (valEq v t)
      | _ => some false
  | .ne =>
      match target with
      | .scalar t => some (!(valEq v t))
      | _ => some true
  | .gt | .lt | .ge | .le =>
      match target with
      | .scalar t =>
          match v with
          | .null => some false
          | _ =>
              match valOrd v t with
              | some o => some (ordToBool op o)
              | none => none
      | _ => none
  | .contains =>
      match target with
      | .scalar t => some (strContainsCI (valToStr v) (valToStr t))
      | _ => none
  | .isin =>
      match target with
      | .list vs => some (vs.any (fun t => isinEq v t))
      | _ => none
  | _ => none

/-- Evaluate an elementwise predicate over a whole series; `none` as soon
as one element raises, mirroring a pandas comparison failing as a whole. -/
def seriesMaskWith (f : Value → Option Bool) : List Value → Option (List Bool)
  | [] => some []
  | v :: vs =>
      match f v, seriesMaskWith f vs with
      | some b, some m => some (b :: m)
      | _, _ => none

/-- A DataFrame: named columns and a list of rows. -/
structure Df where
  cols : List String
  rows : List (List Value)
deriving DecidableEq, Repr

/-- The values of one column, `df[column]`. -/
def colValues (df : Df) (col : String) : List Value :=
  df.rows.map (fun r => r.getD (df.cols.indexOf col) Value.null)

/-- `df[mask]`: keep the rows whose mask entry is true, in order. -/
def keepByMask (rows : List (List Value)) (mask : List Bool) : List (List Value) :=
  ((rows.zip mask).filter (fun p => p.2)).map (fun p => p.1)

/-- `ExcelOperations._apply_filter(df, column, condition)`.  The result is
`none` exactly when the Python function falls through every branch and
implicitly returns `None` (a dict condition with an operator outside its
dispatch); a pandas exception raised by the comparison is caught by the
surrounding `except` and yields the input DataFrame unchanged. -/
def applyFilter (df : Df) (col : String) (cond : Cond) : Option Df :=
  match cond with
  | .simple v =>
      some { df with rows := keepByMask df.rows ((colValues df col).map (fun x => valEq x v)) }
  | .dict c =>
      if filterOpRecognized c.op then
        match seriesMaskWith (seriesElemMatch c.op c.val) (colValues df col) with
        | some mask => some { df with rows := keepByMask df.rows mask }
        | none => some df
      else none

/-- `ExcelOperations._check_condition_mask(series, condition)`.  `none`
models the implicit `return None` on an unrecognised dict operator; an
exception inside the comparison is caught and yields an all-False mask. -/
def checkConditionMask (vals : List Value) (cond : Cond) : Option (List Bool) :=
  match cond with
  | .simple v => some (vals.map (fun x => valEq x v))
  | .dict c =>
      if filterOpRecognized c.op then
        match seriesMaskWith (seriesElemMatch c.op c.val) vals with
        | some mask => some mask
        | none => some (List.replicate vals.length false)
      else none

/-- The delete-by-condition branch of
`ExcelOperations._apply_data_operations` (keep the rows that do NOT match).
`none` models the crash that follows `_check_condition_mask` returning
`None` (`~None` raises). -/
def deleteByCondition (df : Df) (col : String) (cond : Cond) : Option Df :=
  if df.cols.contains col then
    match checkConditionMask (colValues df col) cond with
    | some mask => some { df with rows := keepByMask df.rows (mask.map (fun b => !b)) }
    | none => none
  else some df

/-- The `delete_rows` parameter object: explicit 1-indexed row numbers, a
column plus condition, or neither (in which case the source's
`if`/`elif` chain does nothing). -/
inductive DeleteSpec
  | byNumbers (ns : List Int)
  | byCond (col : String) (cond : Cond)
  | inert
deriving DecidableEq, Repr

/-- Drop the rows whose 0-based position appears in `idxs`
(`df.drop(df.index[indices_to_drop])`), keeping the rest in order. -/
def removeIdxs (rows : List (List Value)) (idxs : List Int) : List (List Value) :=
  (rows.enum.filter (fun p => !(idxs.contains ((p.1 : Int))))).map Prod.snd

/-- The `sort` parameter object. -/
structure SortSpec where
  byCols : List String
  ascending : Bool
deriving DecidableEq, Repr

/-- A total order on values used to model pandas sorting of homogeneous
columns: numbers by numeric order, strings lexicographically.  (pandas
raises on mixed-type columns and places NaN last; the claims under study
never sort such columns, so this model simply extends the per-type orders
to a total relation.) -/
def valueLe : Value → Value → Bool
  | .num a, .num b => a ≤ b
  | .str a, .str b => a ≤ b
  | .num _, _ => true
  | .str _, .num _ => false
  | .str _, _ => true
  | .null, .null => true
  | .null, _ => false

/-- Lexicographic comparison of two key tuples (multi-column sort keys). -/
def keysLe : List Value → List Value → Bool
  | [], _ => true
  | _ :: _, [] => true
  | a :: as, b :: bs => if a = b then keysLe as bs else valueLe a b

instance boolFunDecidableRel {α : Type} (f : α → α → Bool) :
    DecidableRel (fun a b => f a b = true) :=
  fun a b => Bool.decEq (f a b) true

/-- `df.sort_values(by=byCols, ascending=asc)` modelled as a stable
insertion sort on the key tuples (descending flips the key comparison, so
ties keep their original relative order either way). -/
def sortRows (cols : List String) (byCols : List String) (asc : Bool)
    (rows : List (List Value)) : List (List Value) :=
  let key := fun (r : List Value) => byCols.map (fun c => r.getD (cols.indexOf c) Value.null)
  let le := fun (r1 r2 : List Value) =>
    if asc then keysLe (key r1) (key r2) else keysLe (key r2) (key r1)
  List.insertionSort (fun a b => le a b = true) rows

/-- `df.head(n)` including pandas' negative-`n` convention
(drop the last `|n|` rows). -/
def pdHead (n : Int) (rows : List (List Value)) : List (List Value) :=
  if 0 ≤ n then rows.take n.toNat else rows.take (rows.length - (-n).toNat)

/-- `df.tail(n)` including pandas' negative-`n` convention
(drop the first `|n|` rows). -/
def pdTail (n : Int) (rows : List (List Value)) : List (List Value) :=
  if 0 ≤ n then rows.drop (rows.length - n.toNat) else rows.drop (-n).toNat

/-- The operation specification consumed by the row-level data pipeline.
In the source this is a string-keyed dict; a missing key is `none`. -/
structure OpSpec where
  removeLastRow : Bool
  deleteRows : Option DeleteSpec
  filter : Option (List (String × Cond))
  sort : Option SortSpec
  topN : Option Int
  bottomN : Option Int
deriving DecidableEq, Repr

/-- The `remove_last_row` block of `_apply_data_operations` /
`_apply_operations_to_dataframe` (the two sources contain the same code). -/
def applyRemoveLastRowOp (flag : Bool) (df : Df) : Df :=
  if flag then (if df.rows.length > 0 then { df with rows := df.rows.dropLast } else df)
  else df

/-- The `delete_rows` block of `ExcelOperations._apply_data_operations`. -/
def applyDeleteRowsOp (spec : DeleteSpec) (df : Df) : Option Df :=
  match spec with
  | .byNumbers ns =>
      let idxs := (ns.filter (fun i => 0 < i && i ≤ (df.rows.length : Int))).map (fun i => i - 1)
      if idxs.isEmpty then some df else some { df with rows := removeIdxs df.rows idxs }
  | .byCond colName cond => deleteByCondition df colName cond
  | .inert => some df

/-- The `filter` block of `ExcelOperations._apply_data_operations`: iterate
the filter dict, skipping unknown columns.  `none` models the request dying
with an unhandled exception after `_apply_filter` returned `None`. -/
def applyFilterListOp : List (String × Cond) → Df → Option Df
  | [], df => some df
  | (colName, cond) :: rest, df =>
      if df.cols.contains colName then
        match applyFilter df colName cond with
        | some d => applyFilterListOp rest d
        | none => none
      else applyFilterListOp rest df

/-- The `sort` block of `ExcelOperations._apply_data_operations`; a key
column missing from the frame makes `sort_values` raise (`none`). -/
def applySortOp (s : SortSpec) (df : Df) : Option Df :=
  if s.byCols.isEmpty then some df
  else if s.byCols.all (fun c => df.cols.contains c) then
    some { df with rows := sortRows df.cols s.byCols s.ascending df.rows }
  else none

/-- The `top_n` block: `df.head(n)`. -/
def applyTopNOp (n : Int) (df : Df) : Df := { df with rows := pdHead n df.rows }

/-- The `bottom_n` block: `df.tail(n)`. -/
def applyBottomNOp (n : Int) (df : Df) : Df := { df with rows := pdTail n df.rows }

/-- Sequencing of two pipeline blocks: the first block either produces the
next DataFrame or the request dies with an unhandled exception, which the
rest of the pipeline then never sees. -/
def optSeq (x : Option Df) (k : Df → Option Df) : Option Df :=
  match x with
  | none => none
  | some d => k d

/-- `ExcelOperations._apply_data_operations(df, operations)`, translated
block by block in the source's textual order: remove_last_row, delete_rows,
filter, sort, top_n, bottom_n.  `none` models the request dying with an
unhandled exception (see the individual blocks). -/
def applyDataOperations (ops : OpSpec) (df : Df) : Option Df :=
  let df1 :=
    if ops.removeLastRow then
      (if df.rows.length > 0 then { df with rows := df.rows.dropLast } else df)
    else df
  optSeq
    (match ops.deleteRows with
     | none => some df1
     | some (.byNumbers ns) =>
         let idxs := (ns.filter (fun i => 0 < i && i ≤ (df1.rows.length : Int))).map (fun i => i - 1)
         if idxs.isEmpty then some df1 else some { df1 with rows := removeIdxs df1.rows idxs }
     | some (.byCond colName cond) => deleteByCondition df1 colName cond
     | some .inert => some df1)
    (fun df2 =>
  optSeq
    (match ops.filter with
     | none => some df2
     | some fs => applyFilterListOp fs df2)
    (fun df3 =>
  optSeq
    (match ops.sort with
     | none => some df3
     | some s =>
         if s.byCols.isEmpty then some df3
         else if s.byCols.all (fun c => df3.cols.contains c) then
           some { df3 with rows := sortRows df3.cols s.byCols s.ascending df3.rows }
         else none)
    (fun df4 =>
  let df5 := match ops.topN with
    | none => df4
    | some n => { df4 with rows := pdHead n df4.rows }
  let df6 := match ops.bottomN with
    | none => df5
    | some n => { df5 with rows := pdTail n df5.rows }
  some df6)))

/-- Run an optional fallible stage: a missing key leaves the frame alone. -/
def optStep (f : σ → Df → Option Df) (o : Option σ) (df : Df) : Option Df :=
  match o with
  | none => some df
  | some s => f s df

/-- Run an optional pure stage: a missing key leaves the frame alone. -/
def optPure (f : σ → Df → Df) (o : Option σ) (df : Df) : Df :=
  match o with
  | none => df
  | some s => f s df

/-!  The multi-sheet handler (`multi_sheet_handler._apply_operations_to_dataframe`)
re-implements the row-level pipeline with its own operator dispatch: it
recognises ==, !=, in, >, <, >=, <= (no contains), wraps a scalar `in`
probe into a singleton list, treats an unknown operator as an all-False
mask when deleting and as a no-op when filtering, and has no
top_n/bottom_n stage. -/

/-- The operators `_apply_operations_to_dataframe` dispatches on. -/
def msOpRecognized : CondOp → Bool
  | .eq | .ne | .isin | .gt | .lt | .ge | .le => true
  | _ => false

/-- Elementwise evaluation of one comparison in
`_apply_operations_to_dataframe`; differs from `seriesElemMatch` in the
`in` branch (`value if isinstance(value, list) else [value]`). -/
def msElemMatch (op : CondOp) (target : CondVal) (v : Value) : Option Bool :=
  match op with
  | .isin =>
      let probe :=
        match target with
        | .list vs => vs
        | .scalar t => [t]
        | .noval => [Value.null]
      some (probe.any (fun t => isinEq v t))
  | _ => seriesElemMatch op target v

/-- The `delete_rows` block of `_apply_operations_to_dataframe`.  A
non-dict condition raises when the source reads `condition.get` (`none`);
an unrecognised operator produces an all-False mask (nothing deleted). -/
def msDeleteRowsOp (spec : DeleteSpec) (df : Df) : Option Df :=
  match spec with
  | .byNumbers ns =>
      let idxs := (ns.filter (fun i => 0 < i && i ≤ (df.rows.length : Int))).map (fun i => i - 1)
      some { df with rows := removeIdxs df.rows idxs }
  | .byCond colName cond =>
      if df.cols.contains colName then
        match cond with
        | .simple _ => none
        | .dict c =>
            if msOpRecognized c.op then
              match seriesMaskWith (msElemMatch c.op c.val) (colValues df colName) with
              | some mask => some { df with rows := keepByMask df.rows (mask.map (fun b => !b)) }
              | none => none
            else
              let keepAll := (List.replicate df.rows.length false).map (fun b => !b)
              some { df with rows := keepByMask df.rows keepAll }
      else some df
  | .inert => some df

/-- The `filter` block of `_apply_operations_to_dataframe`: unknown
columns, non-dict conditions and unrecognised operators are skipped;
a raised comparison kills the request (`none`). -/
def msFilterListOp : List (String × Cond) → Df → Option Df
  | [], df => some df
  | (colName, cond) :: rest, df =>
      if df.cols.contains colName then
        match cond with
        | .simple _ => msFilterListOp rest df
        | .dict c =>
            if msOpRecognized c.op then
              match seriesMaskWith (msElemMatch c.op c.val) (colValues df colName) with
              | some mask => msFilterListOp rest { df with rows := keepByMask df.rows mask }
              | none => none
            else msFilterListOp rest df
      else msFilterListOp rest df

/-- The `sort` block of `_apply_operations_to_dataframe`: key columns are
first restricted to those present (`valid_columns`), so a missing column
never raises here. -/
def msSortOp (s : SortSpec) (df : Df) : Df :=
  let valid := s.byCols.filter (fun c => df.cols.contains c)
  if valid.isEmpty then df
  else { df with rows := sortRows df.cols valid s.ascending df.rows }

/-- `multi_sheet_handler._apply_operations_to_dataframe(df, operations)`,
translated block by block in the source's textual order: remove_last_row,
delete_rows, filter, sort. -/
def msApplyOperations (ops : OpSpec) (df : Df) : Option Df :=
  let df1 :=
    if ops.removeLastRow then
      (if df.rows.length > 0 then { df with rows := df.rows.dropLast } else df)
    else df
  optSeq
    (match ops.deleteRows with
     | none => some df1
     | some spec => msDeleteRowsOp spec df1)
    (fun df2 =>
  optSeq
    (match ops.filter with
     | none => some df2
     | some fs => msFilterListOp fs df2)
    (fun df3 =>
  let df4 :=
    match ops.sort with
    | none => df3
    | some s =>
        let valid := s.byCols.filter (fun c => df3.cols.contains c)
        if valid.isEmpty then df3
        else { df3 with rows := sortRows df3.cols valid s.ascending df3.rows }
  some df4))

/-!  The cell-at-a-time condition evaluator
`ExcelOperations._check_condition` and its date helpers. -/

/-- A calendar date, the model of a Python `datetime` as far as the engine
reads it (`.year` and `.month`; `.day` only for parse validation). -/
structure PyDate where
  year : Int
  month : Nat
  day : Nat
deriving DecidableEq, Repr

/-- Gregorian leap year. -/
def isLeap (y : Int) : Bool :=
  (y % 4 == 0 && y % 100 != 0) || (y % 400 == 0)

/-- Days in a month, for `strptime`'s calendar validation. -/
def daysInMonth (y : Int) (m : Nat) : Nat :=
  match m with
  | 1 => 31 | 2 => if isLeap y then 29 else 28 | 3 => 31 | 4 => 30
  | 5 => 31 | 6 => 30 | 7 => 31 | 8 => 31
  | 9 => 30 | 10 => 31 | 11 => 30 | 12 => 31
  | _ => 0

/-- `datetime(y, m, d)` subject to calendar validation. -/
def mkDate (y : Int) (m d : Nat) : Option PyDate :=
  if 1 ≤ m ∧ m ≤ 12 ∧ 1 ≤ d ∧ d ≤ daysInMonth y m then some ⟨y, m, d⟩ else none

/-- Split a string on a separator into three all-digit fields. -/
def threeFields (s : String) (sep : String) : Option (Nat × Nat × Nat) :=
  match s.splitOn sep with
  | [a, b, c] =>
      match parseDigits a.toList, parseDigits b.toList, parseDigits c.toList with
      | some x, some y, some z => some (x, y, z)
      | _, _, _ => none
  | _ => none

/-- Model of the source's `datetime.strptime` loop over the formats
'%Y-%m-%d', '%d/%m/%Y', '%m/%d/%Y', '%Y/%m/%d', '%d-%m-%Y', in that order:
the first format that parses and passes calendar validation wins. -/
def pyParseDate (s : String) : Option PyDate :=
  match threeFields s "-" with
  | some (a, b, c) =>
      (match mkDate (a : Int) b c with          -- %Y-%m-%d
       | some d => some d
       | none => mkDate (c : Int) b a)          -- %d-%m-%Y
  | none =>
      match threeFields s "/" with
      | some (a, b, c) =>
          (match mkDate (c : Int) b a with      -- %d/%m/%Y
           | some d => some d
           | none =>
             match mkDate (c : Int) a b with    -- %m/%d/%Y
             | some d => some d
             | none => mkDate (a : Int) b c)    -- %Y/%m/%d
      | none => none

/-- Case-sensitive substring test, Python's `a in b`. -/
def strContainsCS (hay need : String) : Bool :=
  let h := hay.toList
  let n := need.toList
  (List.range (h.length + 1)).any (fun i => n.isPrefixOf (h.drop i))

/-- Python `int(str)`: optional sign plus digits, anything else raises. -/
def pyIntOfString (s : String) : Option Int :=
  match trimChars s.toList with
  | '-' :: rest => (parseDigits rest).map (fun n => -(n : Int))
  | '+' :: rest => (parseDigits rest).map (fun n => (n : Int))
  | cs => (parseDigits cs).map (fun n => (n : Int))

/-- Python `int(value)`: floats truncate toward zero, strings must be
integer literals, anything else raises. -/
def pyInt : Value → Option Int
  | .num q => some (if 0 ≤ q then q.floor else -((-q).floor))
  | .str s => pyIntOfString s
  | .null => none

/-- The raw Python object held by a condition's `value` field, for the code
paths that pass it to a helper unchanged.  A missing field is Python
`None`, which this model collapses onto `Value.null`. -/
def cvRaw : CondVal → Value
  | .scalar v => v
  | .noval => Value.null
  | .list _ => Value.null

/-- Full month names, lowercase, as listed in the source. -/
def monthNames : List String :=
  ["january", "february", "march", "april", "may", "june",
   "july", "august", "september", "october", "november", "december"]

/-- `ExcelOperations._check_date_in_month(value, month_spec)`: parse the
cell as a date (falling back to a plain substring test when no format
matches), then compare against a "YYYY-MM", numeric or month-name spec;
every internal failure yields False via the surrounding `except`. -/
def checkDateInMonth (v : Value) (monthSpec : Value) : Bool :=
  match v with
  | .str s =>
      (match pyParseDate s with
       | none => strContainsCS (valToStr v) (valToStr monthSpec)
       | some dte =>
          let ms := valToStr monthSpec
          if strContainsCS ms "-" then
            match ms.splitOn "-" with
            | [a, b] =>
                (match pyIntOfString a, pyIntOfString b with
                 | some yy, some mm => dte.year == yy && (dte.month : Int) == mm
                 | _, _ => false)
            | _ =>
                (match pyIntOfString ms with
                 | some mm => (dte.month : Int) == mm
                 | none => false)
          else
            match pyInt monthSpec with
            | some mm => (dte.month : Int) == mm
            | none =>
                match monthNames.indexOf? ms.toLower with
                | some i => dte.month == i + 1
                | none => false)
  | _ => false

/-- The month preceding a reference date (`relativedelta(months=1)` as far
as year/month are read). -/
def prevMonth (d : PyDate) : Int × Nat :=
  if d.month = 1 then (d.year - 1, 12) else (d.year, d.month - 1)

/-- `ExcelOperations._check_date_in_previous_month(value, reference_date)`:
parse the cell as a date, resolve the reference (a "%Y-%m-%d" string, or
`now` when absent — `now` stands for the source's `datetime.now()`), and
compare year and month; any failure yields False. -/
def checkDateInPrevMonth (now : PyDate) (v : Value) (ref : Value) : Bool :=
  match v with
  | .str s =>
      (match pyParseDate s with
       | none => false
       | some dte =>
          let refDate : Option PyDate :=
            match ref with
            | .null => some now
            | .str r =>
                (match threeFields r "-" with
                 | some (a, b, c) => mkDate (a : Int) b c
                 | none => none)
            | .num _ => none
          match refDate with
          | none => false
          | some rd =>
              let pm := prevMonth rd
              dte.year == pm.1 && dte.month == pm.2)
  | _ => false

/-- `float(...)` of a condition's `value` field. -/
def cvToFloat : CondVal → Option Rat
  | .scalar t => valToFloat t
  | _ => none

/-- `ExcelOperations._check_condition(value, condition)`, the fallible
core: the NaN short-circuit first, then the operator dispatch.  `none`
models both a raised exception and the implicit `return None` on an
operator outside the dispatch (`topN`/`bottomN` reach `_check_condition`
only through code paths that already peeled them off).  (A `contains`
or `in` probe that is itself a list is also modelled as a failure; the
sources never build one.) -/
def checkConditionCore (now : PyDate) (v : Value) (c : Condition) : Option Bool :=
  if pdIsna v then some (c.op == CondOp.isNull)
  else
    match c.op with
    | .eq =>
        (match c.val with
         | .scalar t => some (valEq v t)
         | _ => some false)
    | .ne =>
        (match c.val with
         | .scalar t => some (!(valEq v t))
         | _ => some true)
    | .gt | .lt | .ge | .le =>
        (match valToFloat v, cvToFloat c.val with
         | some a, some b => some (ordToBool c.op (compare a b))
         | _, _ => none)
    | .contains =>
        (match c.val with
         | .scalar t => some (strContainsCI (valToStr v) (valToStr t))
         | .noval => some (strContainsCI (valToStr v) "None")
         | .list _ => none)
    | .isin =>
        (match c.val with
         | .list vs => some (vs.any (fun t => isinEq v t))
         | .scalar (.str t) =>
             (match v with
              | .str s => some (strContainsCS t s)
              | _ => none)
         | _ => none)
    | .isNull => some (pdIsna v)
    | .dateInMonth => some (checkDateInMonth v (cvRaw c.val))
    | .dateInPrevMonth => some (checkDateInPrevMonth now v (cvRaw c.val))
    | .topN | .bottomN => none

/-- `ExcelOperations._check_condition(value, condition)` as its callers see
it: exceptions and the implicit `None` both behave as a non-match. -/
def checkCondition (now : PyDate) (v : Value) (cond : Cond) : Bool :=
  match cond with
  | .dict c => (checkConditionCore now v c).getD false
  | .simple t => valEq v t

/-!  Multi-sheet routing (`multi_sheet_handler.handle_multi_sheet_operation`,
data-operation phase). -/

/-- Python `a.lower() == b.lower()`. -/
def strLowerEq (a b : String) : Bool :=
  a.toList.map Char.toLower == b.toList.map Char.toLower

/-- The `should_process` decision of `handle_multi_sheet_operation`:
`apply_to_all_sheets` selects everything; otherwise a `target_sheet`
selects the case-insensitively matching names; with neither set every
sheet is selected (backward compatibility).  A `target_sheet` that is
present but empty is falsy in Python and is modelled as `none`. -/
def shouldProcessSheet (applyAll : Bool) (target : Option String) (name : String) : Bool :=
  if applyAll then true
  else
    match target with
    | some t => strLowerEq name t
    | none => true

/-- The per-sheet loop of `handle_multi_sheet_operation` over
`sheets_data` (already sorted by sheet index): selected sheets get the
data operations, the rest are kept as they are; a raised exception inside
`_apply_operations_to_dataframe` aborts the whole request (`none`). -/
def processSheets (applyAll : Bool) (target : Option String) (ops : OpSpec) :
    List (String × Df) → Option (List (String × Df))
  | [] => some []
  | s :: rest =>
      match (if shouldProcessSheet applyAll target s.1 then
               (msApplyOperations ops s.2).map (fun d => (s.1, d))
             else some s) with
      | none => none
      | some s' => (processSheets applyAll target ops rest).map (fun out => s' :: out)

/-- A concrete two-sheet session and operation used as witness input. -/
def exSheets : List (String × Df) :=
  [("Alpha", ⟨["A"], [[Value.num 1], [Value.num 2]]⟩),
   ("Beta", ⟨["B"], [[Value.num 3], [Value.num 4]]⟩)]

/-- A remove-last-row-only operation spec. -/
def exRemoveLastOps : OpSpec :=
  ⟨true, none, none, none, none, none⟩

/-- What `processSheets` produces on `exSheets` when only "beta" is
targeted: Alpha untouched, Beta loses its last row. -/
def exSheetsOut : List (String × Df) :=
  [("Alpha", ⟨["A"], [[Value.num 1], [Value.num 2]]⟩),
   ("Beta", ⟨["B"], [[Value.num 3]]⟩)]

/-!  The merge pipeline
(`full_data_agent._handle_merge_files_operation`, sheet assembly).
Sheet names are handled as character lists (Python strings). -/

/-- The characters Excel forbids in sheet names, as listed in the source
(`invalid_chars`). -/
def invalidSheetChars : List Char := ['\\', '/', '*', '?', ':', '[', ']']

/-- The per-upload sheet-name computation: `[:31]`, replace each invalid
character with '_', then strip a trailing .xlsx/.xls/.csv if one is (still)
present. -/
def sanitizeSheetName (raw : List Char) : List Char :=
  let t := raw.take 31
  let r := t.map (fun c => if invalidSheetChars.contains c then '_' else c)
  if ['.', 'x', 'l', 's', 'x'].isSuffixOf r then r.take (r.length - 5)
  else if ['.', 'x', 'l', 's'].isSuffixOf r then r.take (r.length - 4)
  else if ['.', 'c', 's', 'v'].isSuffixOf r then r.take (r.length - 4)
  else r

/-- One uploaded file: the desired sheet name the matcher assigned to it
(if any), its original filename, and its table. -/
structure Upload where
  desired : Option (List Char)
  filename : List Char
  df : Df
deriving DecidableEq

/-- The `sheets_to_merge` list built by `_handle_merge_files_operation`:
the last-generated artifact's sheets first (their names pass through
unsanitized, they already are valid sheet names), then one entry per
uploaded file with its computed sheet name. -/
def mergeEntries (lastGen : List (List Char × Df)) (uploads : List Upload) :
    List (List Char × Df) :=
  lastGen ++ uploads.map (fun u => (sanitizeSheetName (u.desired.getD u.filename), u.df))

/-- Model of the `pd.ExcelWriter` loop: one sheet per entry, holding the
header row (the column names) followed by the data rows.  What pandas and
openpyxl do when two entries carry the same sheet name depends on the
library version (older pandas writers silently reuse the first sheet), so
the model defines the workbook only in the collision-free case. -/
def writeWorkbook (entries : List (List Char × Df)) :
    Option (List (List Char × List (List Value))) :=
  if (entries.map Prod.fst).Nodup then
    some (entries.map (fun e => (e.1, (e.2.cols.map Value.str) :: e.2.rows)))
  else none

/-!  The worksheet model for the presentation operations: a grid of data
cells (header row 1 is untouched by all the operations modelled here, so
only data rows appear; Excel row `r` is grid index `r - 2`).  A cell
carries its value and the style fields the engine writes. -/

/-- One worksheet cell: value, explicit fill (ARGB hex) and boldness. -/
structure Cell where
  value : Value
  fill : Option String
  bold : Bool
deriving DecidableEq, Repr

/-- A fresh cell, as openpyxl materialises one (e.g. after insert_rows). -/
def emptyCell : Cell := ⟨Value.null, none, false⟩

/-- A worksheet: column names and the data-cell grid. -/
structure Ws where
  cols : List String
  grid : List (List Cell)
deriving DecidableEq, Repr

/-- `ExcelOperations.COLORS` with its `.get(color, COLORS['yellow'])`
default. -/
def excelOpsColorTable : List (String × String) :=
  [("red", "FFFF0000"), ("green", "FF00FF00"), ("yellow", "FFFFFF00"),
   ("blue", "FF0000FF"), ("orange", "FFFFA500"), ("purple", "FF800080"),
   ("pink", "FFFFC0CB"), ("cyan", "FF00FFFF"), ("light_green", "FF90EE90"),
   ("light_blue", "FFADD8E6"), ("light_yellow", "FFFFFFE0"),
   ("light_red", "FFFFCCCB"), ("gray", "FFD3D3D3")]

/-- Resolve a colour name through `ExcelOperations.COLORS`. -/
def colorHex (c : String) : String :=
  ((excelOpsColorTable.find? (fun p => p.1 == c)).map Prod.snd).getD "FFFFFF00"

/-- The `color_map` dict of
`multi_sheet_handler._apply_conditional_format_to_sheet` with its
`.get(color, 'FFFFFF00')` default. -/
def msCfColorTable : List (String × String) :=
  [("red", "FFFF0000"), ("green", "FF00FF00"), ("yellow", "FFFFFF00"),
   ("blue", "FF0000FF"), ("orange", "FFFFA500"), ("purple", "FF800080"),
   ("amber", "FFFFBF00")]

/-- Resolve a colour name through the multi-sheet conditional-format map. -/
def msCfColorHex (c : String) : String :=
  ((msCfColorTable.find? (fun p => p.1 == c)).map Prod.snd).getD "FFFFFF00"

/-- Update the cell at row `i`, column `j` of a grid. -/
def setCell (grid : List (List Cell)) (i j : Nat) (f : Cell → Cell) :
    List (List Cell) :=
  grid.modify (fun row => row.modify f j) i

/-- One conditional-formatting rule `{condition, color}` (a missing color
defaults to "yellow" at the call sites, represented by storing the
defaulted string). -/
structure CfRule where
  cond : Cond
  color : String
deriving DecidableEq, Repr

/-- The inner rule loop of
`ExcelOperations._apply_conditional_formatting` for one cell: rules are
tried in order and the loop `break`s after the first whose condition the
cell value satisfies. -/
def applyRulesOnce (now : PyDate) (v : Value) (cell : Cell) : List CfRule → Cell
  | [] => cell
  | r :: rest =>
      if checkCondition now v r.cond then { cell with fill := some (colorHex r.color) }
      else applyRulesOnce now v cell rest

/-- `ExcelOperations._apply_conditional_formatting(ws, df, format_spec)`:
for each data row of the target column, apply the first matching rule's
fill.  A missing or unknown column is a no-op. -/
def applyCondFormatSingle (now : PyDate) (ws : Ws) (column : Option String)
    (rules : List CfRule) : Ws :=
  match column with
  | none => ws
  | some col =>
      if ws.cols.contains col then
        let j := ws.cols.indexOf col
        { ws with grid := ws.grid.map (fun row =>
            row.modify (fun cell => applyRulesOnce now cell.value cell rules) j) }
      else ws

/-- Elementwise rule matching of
`multi_sheet_handler._apply_conditional_format_to_sheet`: only the six
comparison operators are dispatched, everything else leaves `match` False;
the ordering operators guard `cell_value is not None` and raise (`none`)
on incomparable types. -/
def msCfMatch (v : Value) (op : CondOp) (target : CondVal) : Option Bool :=
  match op with
  | .eq =>
      (match target with
       | .scalar t => some (valEq v t)
       | _ => some false)
  | .ne =>
      (match target with
       | .scalar t => some (!(valEq v t))
       | _ => some true)
  | .gt | .lt | .ge | .le =>
      (match target with
       | .scalar t =>
          (match v with
           | .null => some false
           | _ =>
              match valOrd v t with
              | some o => some (ordToBool op o)
              | none => none)
       | _ => none)
  | _ => some false

/-- One full pass of a single rule over every data row of the target
column (the inner `for row_idx` loop of the multi-sheet conditional
format): set the rule's fill on each matching cell. -/
def msCfPass (c : Condition) (color : String) (j : Nat) :
    List (List Cell) → Option (List (List Cell))
  | [] => some []
  | row :: rest =>
      match msCfMatch ((row.getD j emptyCell).value) c.op c.val with
      | none => none
      | some b =>
          let row' :=
            if b then row.modify (fun cell =>
              { cell with fill := some (msCfColorHex color) }) j
            else row
          (msCfPass c color j rest).map (fun g => row' :: g)

/-- The outer `for rule in rules` loop of the multi-sheet conditional
format: every rule sweeps the whole column, later rules overwriting
earlier fills.  A non-dict condition raises when the source reads
`condition.get` (`none`). -/
def msCfRules (j : Nat) : List CfRule → List (List Cell) → Option (List (List Cell))
  | [], g => some g
  | r :: rest, g =>
      match r.cond with
      | .simple _ => none
      | .dict c =>
          match msCfPass c r.color j g with
          | none => none
          | some g' => msCfRules j rest g'

/-- `multi_sheet_handler._apply_conditional_format_to_sheet` on one target
sheet: an exception anywhere aborts the helper before `wb.save`, so the
written file keeps the sheet exactly as it was. -/
def applyCondFormatMulti (ws : Ws) (column : Option String)
    (rules : List CfRule) : Ws :=
  match column with
  | none => ws
  | some col =>
      if ws.cols.contains col then
        let j := ws.cols.indexOf col
        match msCfRules j rules ws.grid with
        | none => ws
        | some g => { ws with grid := g }
      else ws

/-- The rule predicate of the multi-sheet conditional format, for stating
which rule a cell ends up coloured by. -/
def msCfRuleMatches (v : Value) (r : CfRule) : Bool :=
  match r.cond with
  | .simple _ => false
  | .dict c => (msCfMatch v c.op c.val).getD false

/-!  `ExcelOperations._highlight_rows`. -/

/-- Does the condition carry a top-N/bottom-N operator (the source
normalises the operator string case-insensitively before this test;
`some true` = topN, `some false` = bottomN)? -/
def topBottomKind : Cond → Option Bool
  | .dict c =>
      (match c.op with
       | .topN => some true
       | .bottomN => some false
       | _ => none)
  | .simple _ => none

/-- The `n = condition.get('value', 5)` read followed by `nlargest(n, …)`'s
demand for a Python int: a missing value defaults to 5, a non-integer or
non-numeric one makes pandas raise (`none`). -/
def topBottomN : Cond → Option Int
  | .dict c =>
      (match c.val with
       | .noval => some 5
       | .scalar (.num q) => if q.den = 1 then some q.num else none
       | _ => none)
  | .simple _ => none

instance : DecidableRel (fun a b : Rat => b ≤ a) :=
  fun a b => inferInstanceAs (Decidable (b ≤ a))

instance : DecidableRel (fun a b : Rat => a ≤ b) :=
  fun a b => inferInstanceAs (Decidable (a ≤ b))

instance : IsTotal Rat (fun a b : Rat => b ≤ a) := ⟨fun a b => le_total b a⟩

instance : IsTrans Rat (fun a b : Rat => b ≤ a) :=
  ⟨fun _ _ _ h1 h2 => le_trans h2 h1⟩

instance : IsTotal Rat (fun a b : Rat => a ≤ b) := ⟨fun a b => le_total a b⟩

instance : IsTrans Rat (fun a b : Rat => a ≤ b) :=
  ⟨fun _ _ _ h1 h2 => le_trans h1 h2⟩

/-- Is a cell value a number? -/
def valIsNum : Value → Bool
  | .num _ => true
  | _ => false

/-- The value multiset `df.nlargest(n, column)[column].values`: the first
`n` values of the column sorted descending (`nlargest` keeps first
occurrences; only the values matter here).  A negative `n` yields nothing,
`n ≥ length` yields everything, NaNs are dropped. -/
def nlargestVals (n : Int) (qs : List Rat) : List Rat :=
  (List.insertionSort (fun a b => b ≤ a) qs).take n.toNat

/-- `df.nsmallest(n, column)[column].values`, dually. -/
def nsmallestVals (n : Int) (qs : List Rat) : List Rat :=
  (List.insertionSort (fun a b => a ≤ b) qs).take n.toNat

/-- Is a cell acceptable to `nlargest`/`nsmallest` (a numeric column,
possibly with missing entries)?  A non-numeric column makes pandas raise,
which the source catches as a no-op. -/
def valIsNumOrNull : Value → Bool
  | .num _ => true
  | .null => true
  | .str _ => false

/-- The numeric entries of a column. -/
def numericVals (vs : List Value) : List Rat :=
  vs.filterMap (fun v => match v with | .num q => some q | _ => none)

/-- `ExcelOperations._highlight_rows(ws, df, highlight_spec)`: resolve the
column, then either the special top-N/bottom-N path (highlight every row
whose value sits in the top/bottom value multiset, order untouched) or the
regular per-row condition path.  Any exception in the try-body (bad `n`,
non-numeric column) leaves the sheet unchanged. -/
def highlightRows (now : PyDate) (ws : Ws) (column : Option String)
    (cond : Cond) (color : String) : Ws :=
  match column with
  | none => ws
  | some col =>
      if ws.cols.contains col then
        let j := ws.cols.indexOf col
        let fill := colorHex color
        match topBottomKind cond with
        | some isTop =>
            (match topBottomN cond with
             | none => ws
             | some n =>
                let vs := ws.grid.map (fun row => (row.getD j emptyCell).value)
                if vs.all valIsNumOrNull then
                  let top := if isTop then nlargestVals n (numericVals vs)
                             else nsmallestVals n (numericVals vs)
                  { ws with grid := ws.grid.map (fun row =>
                      if (match (row.getD j emptyCell).value with
                          | .num q => top.contains q
                          | _ => false) then
                        row.map (fun cell => { cell with fill := some fill })
                      else row) }
                else ws)
        | none =>
            { ws with grid := ws.grid.map (fun row =>
                if checkCondition now ((row.getD j emptyCell).value) cond then
                  row.map (fun cell => { cell with fill := some fill })
                else row) }
      else ws

/-!  The subtotal inserters
(`ExcelOperations._apply_subtotals` and
`multi_sheet_handler._apply_subtotals_to_sheet`; the two functions are
textual duplicates except for the label text, here the `labelSuffix`
parameter). -/

/-- Python `==` between two worksheet cell values (`group_value !=
current_group` negated): `None == None` is True, different types are
unequal. -/
def cellEq : Value → Value → Bool
  | .null, .null => true
  | .str a, .str b => a == b
  | .num a, .num b => a == b
  | _, _ => false

/-- One group found by the scanner: its label, its first and last Excel
data row, and the row the subtotal gets inserted at. -/
structure SubtotalGroup where
  name : Value
  startRow : Nat
  endRow : Nat
  insertAt : Nat
deriving DecidableEq, Repr

/-- The scanning loop of the subtotal inserters (`for row_idx in
range(2, ws.max_row + 1)`), with `current_group` and `group_start_row`
threaded through; Python's uninitialised `current_group = None` and an
empty group cell are the same `None`, here `Value.null`. -/
def scanGroupsGo : List Value → Nat → Value → Nat → List SubtotalGroup
  | [], row, cur, start =>
      if cur ≠ Value.null then [⟨cur, start, row - 1, row⟩] else []
  | v :: rest, row, cur, start =>
      if cur ≠ Value.null && !(cellEq v cur) then
        ⟨cur, start, row - 1, row⟩ :: scanGroupsGo rest (row + 1) v row
      else scanGroupsGo rest (row + 1) v start

/-- Group boundaries of the group-by column (values listed top to bottom;
data starts at Excel row 2). -/
def scanGroups (vs : List Value) : List SubtotalGroup :=
  scanGroupsGo vs 2 Value.null 2

/-- The aggregate function, after `.get('function', 'count').upper()`;
the sources treat any string other than COUNT and SUM as AVERAGE. -/
inductive AggFn
  | count | sum | average
deriving DecidableEq, Repr

/-- `float(cell.value or 0)`: None and other falsy values become 0, a
non-numeric string raises. -/
def pyFloatOrZero : Value → Option Rat
  | .null => some 0
  | .num q => some q
  | .str s => if s = "" then some 0 else parsePyFloat s

/-- The aggregate over the group's cell values (the worksheet reads
`ws.cell(row=r, ...).value` for `r` in `start_row..end_row`). -/
def aggValue (fn : AggFn) (vals : List Value) : Option Rat :=
  match fn with
  | .count => some ((vals.countP (fun v => v ≠ Value.null)) : Nat)
  | .sum => (vals.mapM pyFloatOrZero).map (fun qs => qs.foldl (· + ·) 0)
  | .average =>
      (vals.mapM pyFloatOrZero).map (fun qs =>
        if qs.length = 0 then 0 else (qs.foldl (· + ·) 0) / (qs.length : Rat))

/-- The values of the aggregate column over Excel rows `s..e` of a grid
(read after the row insertion, exactly as the source does). -/
def rangeVals (grid : List (List Cell)) (aIdx s e : Nat) : List Value :=
  (List.range (e + 1 - s)).map
    (fun k => ((grid.getD (s - 2 + k) []).getD aIdx emptyCell).value)

/-- One iteration of the `for group in reversed(groups)` loop: insert the
empty row, write the label, compute and write the aggregate, then bold and
grey-fill the whole inserted row.  `none` models `float()` raising inside
the sum/average computation. -/
def insertSubtotalRow (labelSuffix : String) (fn : AggFn) (gIdx aIdx width : Nat)
    (grid : List (List Cell)) (grp : SubtotalGroup) : Option (List (List Cell)) :=
  let i := grp.insertAt - 2
  let g1 := List.insertIdx i (List.replicate width emptyCell) grid
  let g2 := setCell g1 i gIdx (fun cell =>
    { cell with value := Value.str (valToStr grp.name ++ labelSuffix) })
  match aggValue fn (rangeVals g2 aIdx grp.startRow grp.endRow) with
  | none => none
  | some q =>
      let g3 := setCell g2 i aIdx (fun cell => { cell with value := Value.num q })
      some (g3.modify (fun row => row.map (fun cell =>
        { cell with bold := true, fill := some "FFE0E0E0" })) i)

/-- The shared body of the two subtotal inserters: resolve the two
columns (missing ⇒ warning and no-op), scan for groups, then insert the
subtotal rows bottom-up. -/
def applySubtotals (labelSuffix : String) (fn : AggFn) (groupBy aggCol : String)
    (ws : Ws) : Option Ws :=
  if ws.cols.contains groupBy then
    if ws.cols.contains aggCol then
      let gIdx := ws.cols.indexOf groupBy
      let aIdx := ws.cols.indexOf aggCol
      let vs := ws.grid.map (fun row => (row.getD gIdx emptyCell).value)
      ((scanGroups vs).reverse.foldlM
          (insertSubtotalRow labelSuffix fn gIdx aIdx ws.cols.length) ws.grid).map
        (fun g => { ws with grid := g })
    else some ws
  else some ws

/-- `ExcelOperations._apply_subtotals`: labels read "<group> Subtotal". -/
def applySubtotalsSingle : AggFn → String → String → Ws → Option Ws :=
  applySubtotals " Subtotal"

/-- `multi_sheet_handler._apply_subtotals_to_sheet` on its target sheet:
labels read "<group> Count" whatever the aggregate function is. -/
def applySubtotalsMulti : AggFn → String → String → Ws → Option Ws :=
  applySubtotals " Count"

/-- The number of group boundaries the scanner sees after `cur`: one for
each adjacent pair of unequal values. -/
def boundaries (cur : Value) : List Value → Nat
  | [] => 0
  | v :: rest => (if cellEq v cur then 0 else 1) + boundaries v rest

/-- The count aggregate the inserter computes for one group: the number of
non-null aggregate-column values over Excel rows `s..e` of the grid. -/
def countVal (grid : List (List Cell)) (aIdx s e : Nat) : Rat :=
  ((rangeVals grid aIdx s e).countP (fun v => v ≠ Value.null) : Nat)

/-- The complete inserted subtotal row: a blank row of `width` cells, the
group label written in the group-by column, the numeric aggregate in the
aggregate column, then every cell made bold with the neutral FFE0E0E0
fill — exactly the row `insertSubtotalRow` builds. -/
def subtotalRow (labelSuffix : String) (width gIdx aIdx : Nat) (name : Value)
    (q : Rat) : List Cell :=
  (((List.replicate width emptyCell).modify
      (fun cell => { cell with value := Value.str (valToStr name ++ labelSuffix) }) gIdx).modify
      (fun cell => { cell with value := Value.num q }) aIdx).map
    (fun cell => { cell with bold := true, fill := some "FFE0E0E0" })

/-- `insertSubtotalRow` with the count aggregate never fails; this is its
pure result. -/
def insertSubtotalRowP (labelSuffix : String) (gIdx aIdx width : Nat)
    (grid : List (List Cell)) (grp : SubtotalGroup) : List (List Cell) :=
  let i := grp.insertAt - 2
  let g1 := List.insertIdx i (List.replicate width emptyCell) grid
  let g2 := setCell g1 i gIdx (fun cell =>
    { cell with value := Value.str (valToStr grp.name ++ labelSuffix) })
  let g3 := setCell g2 i aIdx (fun cell =>
    { cell with value := Value.num (countVal g2 aIdx grp.startRow grp.endRow) })
  g3.modify (fun row => row.map (fun cell =>
    { cell with bold := true, fill := some "FFE0E0E0" })) i

/-- Default `SubtotalGroup` used with `List.getD`. -/
def defGrp : SubtotalGroup := ⟨Value.null, 2, 2, 2⟩

/-- The spec scenario's sheet: Employer = [A, A, B], Trainer = [x, y, z],
sorted by Employer. -/
def exSubWs : Ws :=
  ⟨["Employer", "Trainer"],
   [[⟨Value.str "A", none, false⟩, ⟨Value.str "x", none, false⟩],
    [⟨Value.str "A", none, false⟩, ⟨Value.str "y", none, false⟩],
    [⟨Value.str "B", none, false⟩, ⟨Value.str "z", none, false⟩]]⟩

/-- What the multi-sheet subtotal inserter produces on the scenario:
5 rows, with bold neutral-filled "A Count" = 2 and "B Count" = 1 rows. -/
def exSubOutMulti : Ws :=
  ⟨["Employer", "Trainer"],
   [[⟨Value.str "A", none, false⟩, ⟨Value.str "x", none, false⟩],
    [⟨Value.str "A", none, false⟩, ⟨Value.str "y", none, false⟩],
    [⟨Value.str "A Count", some "FFE0E0E0", true⟩,
     ⟨Value.num 2, some "FFE0E0E0", true⟩],
    [⟨Value.str "B", none, false⟩, ⟨Value.str "z", none, false⟩],
    [⟨Value.str "B Count", some "FFE0E0E0", true⟩,
     ⟨Value.num 1, some "FFE0E0E0", true⟩]]⟩

/-- What the single-sheet subtotal inserter produces on the scenario: the
same 5 rows, but labelled "A Subtotal" / "B Subtotal". -/
def exSubOutSingle : Ws :=
  ⟨["Employer", "Trainer"],
   [[⟨Value.str "A", none, false⟩, ⟨Value.str "x", none, false⟩],
    [⟨Value.str "A", none, false⟩, ⟨Value.str "y", none, false⟩],
    [⟨Value.str "A Subtotal", some "FFE0E0E0", true⟩,
     ⟨Value.num 2, some "FFE0E0E0", true⟩],
    [⟨Value.str "B", none, false⟩, ⟨Value.str "z", none, false⟩],
    [⟨Value.str "B Subtotal", some "FFE0E0E0", true⟩,
     ⟨Value.num 1, some "FFE0E0E0", true⟩]]⟩

/-- A sheet whose single data row has an empty (null) Employer cell: the
scanner's `current_group is not None` guard records no group for it. -/
def exSubNullWs : Ws :=
  ⟨["Employer", "Trainer"],
   [[⟨Value.null, none, false⟩, ⟨Value.str "x", none, false⟩]]⟩

/-- "Equal values are contiguous": the formal reading of "table already
sorted by the group_by column" that the group scanner relies on. -/
def Grouped (vs : List Value) : Prop :=
  ∀ i j k : Fin vs.length, i.val < j.val → j.val < k.val →
    vs.get i = vs.get k → vs.get j = vs.get i

instance (vs : List Value) : Decidable (Grouped vs) := by
  unfold Grouped; infer_instance

/-- A one-column numeric sheet (values 5, 9, 5, 3), witness input for the
top-N highlight: with n = 2 the rows with 9 and both 5s get the fill. -/
def exTopWs : Ws :=
  ⟨["S"], [[⟨Value.num 5, none, false⟩], [⟨Value.num 9, none, false⟩],
           [⟨Value.num 5, none, false⟩], [⟨Value.num 3, none, false⟩]]⟩

/-- The spec's running example table `[{Status:"Active"},{Status:"Paused"},
{Status:"Active"}]`, used as a concrete witness input. -/
def statusDf : Df :=
  ⟨["Status"], [[Value.str "Active"], [Value.str "Paused"], [Value.str "Active"]]⟩

/-- A one-sheet previously generated artifact, witness input for C8. -/
def exLastGen : List (List Char × Df) :=
  [("Prev".toList, ⟨["X"], [[Value.num 9]]⟩)]

/-- One uploaded file named Data.csv with two rows, witness input for C8. -/
def exUploads : List Upload :=
  [⟨none, "Data.csv".toList, ⟨["A"], [[Value.num 1], [Value.num 2]]⟩⟩]

/-- A one-cell sheet whose value matches both rules of `exCfRules`. -/
def exCfWs : Ws := ⟨["X"], [[⟨Value.num 5, none, false⟩]]⟩

/-- Two ordered rules that both match the value 5: first yellow, then
red. -/
def exCfRules : List CfRule :=
  [⟨.dict ⟨CondOp.gt, .scalar (.num 0)⟩, "yellow"⟩,
   ⟨.dict ⟨CondOp.gt, .scalar (.num 4)⟩, "red"⟩]

/-! ## Theorems -/

theorem seriesMaskWith_eq_map (f : Value → Option Bool) :
    ∀ (vs : List Value) (m : List Bool), seriesMaskWith f vs = some m →
      m = vs.map (fun v => (f v).getD false) := by
  intro vs
  induction vs with
  | nil =>
      intro m h
      simp only [seriesMaskWith, Option.some.injEq] at h
      simp [← h]
  | cons v vs ih =>
      intro m h
      simp only [seriesMaskWith] at h
      cases hf : f v with
      | none => rw [hf] at h; simp at h
      | some b =>
          rw [hf] at h
          cases hm : seriesMaskWith f vs with
          | none => rw [hm] at h; simp at h
          | some m' =>
              rw [hm] at h
              simp only [Option.some.injEq] at h
              rw [← h]
              simp [hf, ih m' hm]

theorem keepByMask_map_eq_filter (rows : List (List Value)) (h : List Value → Bool) :
    keepByMask rows (rows.map h) = rows.filter h := by
  induction rows with
  | nil => rfl
  | cons r rs ih =>
      simp only [keepByMask, List.map_cons, List.zip_cons_cons, List.filter_cons] at *
      cases hr : h r <;> simp [hr, ih, keepByMask]

theorem length_filter_add_length_filter_not (p : List Value → Bool)
    (l : List (List Value)) :
    (l.filter p).length + (l.filter (fun a => !(p a))).length = l.length := by
  induction l with
  | nil => rfl
  | cons a l ih => cases hp : p a <;> simp [List.filter_cons, hp] <;> omega

/-- C3: for a condition on an existing column whose elementwise evaluation
does not raise, `filter` keeps exactly the matching rows in their original
order, the delete-by-condition branch of `delete_rows` keeps exactly the
non-matching rows in their original order, the two row counts sum to the
input's row count, and no row position is kept by both. -/
theorem filter_delete_complementary
    (df : Df) (col : String) (c : Condition) (mask : List Bool)
    (hop : filterOpRecognized c.op = true)
    (hcol : df.cols.contains col = true)
    (hmask : seriesMaskWith (seriesElemMatch c.op c.val) (colValues df col) = some mask) :
    ∃ F D : Df,
      applyFilter df col (.dict c) = some F ∧
      deleteByCondition df col (.dict c) = some D ∧
      F.cols = df.cols ∧ D.cols = df.cols ∧
      F.rows = df.rows.filter (fun r =>
        (seriesElemMatch c.op c.val (r.getD (df.cols.indexOf col) Value.null)).getD false) ∧
      D.rows = df.rows.filter (fun r =>
        !((seriesElemMatch c.op c.val (r.getD (df.cols.indexOf col) Value.null)).getD false)) ∧
      F.rows.length + D.rows.length = df.rows.length ∧
      F.rows.Sublist df.rows ∧ D.rows.Sublist df.rows ∧
      (∀ r ∈ F.rows, r ∉ D.rows) := by
  set p : List Value → Bool := fun r =>
    (seriesElemMatch c.op c.val (r.getD (df.cols.indexOf col) Value.null)).getD false with hp
  have hm := seriesMaskWith_eq_map _ _ _ hmask
  have hkey : mask = df.rows.map p := by
    rw [hm]; simp only [colValues, List.map_map]; rfl
  have hnot : mask.map (fun b => !b) = df.rows.map (fun r => !(p r)) := by
    rw [hkey, List.map_map]; rfl
  refine ⟨⟨df.cols, df.rows.filter p⟩, ⟨df.cols, df.rows.filter (fun r => !(p r))⟩,
      ?_, ?_, rfl, rfl, rfl, rfl, ?_, ?_, ?_, ?_⟩
  · simp only [applyFilter, hop, if_true, hmask, hkey, keepByMask_map_eq_filter]
  · simp only [deleteByCondition, hcol, if_true, checkConditionMask, hop, hmask, hnot]
    rw [show (df.rows.map fun r => !(p r)) =
          df.rows.map (fun r => (fun r => !(p r)) r) from rfl,
        keepByMask_map_eq_filter]
  · exact length_filter_add_length_filter_not p df.rows
  · exact List.filter_sublist _
  · exact List.filter_sublist _
  · intro r hrF hrD
    have h1 := (List.mem_filter.mp hrF).2
    have h2 := (List.mem_filter.mp hrD).2
    rw [h1] at h2
    simp at h2

/-- Witness for C3 at the spec's own scenario: Status == "Active" on the
three-row table splits it 2 + 1. -/
theorem filter_delete_complementary_witness :
    ∃ F D : Df,
      applyFilter statusDf "Status" (.dict ⟨.eq, .scalar (.str "Active")⟩) = some F ∧
      deleteByCondition statusDf "Status" (.dict ⟨.eq, .scalar (.str "Active")⟩) = some D ∧
      F.cols = statusDf.cols ∧ D.cols = statusDf.cols ∧
      F.rows = statusDf.rows.filter (fun r =>
        (seriesElemMatch CondOp.eq (.scalar (.str "Active"))
          (r.getD (statusDf.cols.indexOf "Status") Value.null)).getD false) ∧
      D.rows = statusDf.rows.filter (fun r =>
        !((seriesElemMatch CondOp.eq (.scalar (.str "Active"))
          (r.getD (statusDf.cols.indexOf "Status") Value.null)).getD false)) ∧
      F.rows.length + D.rows.length = statusDf.rows.length ∧
      F.rows.Sublist statusDf.rows ∧ D.rows.Sublist statusDf.rows ∧
      (∀ r ∈ F.rows, r ∉ D.rows) :=
  filter_delete_complementary statusDf "Status" ⟨.eq, .scalar (.str "Active")⟩
    [true, false, true] (by decide) (by decide) (by decide)

/-- `optSeq` is exactly `Option.bind`, i.e. ordinary sequential
composition of fallible steps. -/
theorem optSeq_eq_bind (x : Option Df) (k : Df → Option Df) :
    optSeq x k = x.bind k := by
  cases x <;> rfl

/-- C2: both row-level pipelines apply their blocks in the fixed order
remove_last_row, delete_rows, filter, sort, then top_n/bottom_n (the
multi-sheet pipeline has no top_n/bottom_n stage): each monolithic
function equals the sequential composition of its individually defined
stage operations, whatever the operation spec contains. -/
theorem data_operations_fixed_order (ops : OpSpec) (df : Df) :
    applyDataOperations ops df =
      optSeq (optStep applyDeleteRowsOp ops.deleteRows
          (applyRemoveLastRowOp ops.removeLastRow df))
        (fun d2 => optSeq (optStep applyFilterListOp ops.filter d2)
          (fun d3 => optSeq (optStep applySortOp ops.sort d3)
            (fun d4 => some (optPure applyBottomNOp ops.bottomN
              (optPure applyTopNOp ops.topN d4))))) ∧
    msApplyOperations ops df =
      optSeq (optStep msDeleteRowsOp ops.deleteRows
          (applyRemoveLastRowOp ops.removeLastRow df))
        (fun d2 => optSeq (optStep msFilterListOp ops.filter d2)
          (fun d3 => some (optPure msSortOp ops.sort d3))) := by
  rcases ops with ⟨rl, dr, fl, so, tn, bn⟩
  constructor
  · cases dr with
    | none => cases fl <;> cases so <;> cases tn <;> cases bn <;> rfl
    | some spec =>
        cases spec <;> cases fl <;> cases so <;> cases tn <;> cases bn <;> rfl
  · cases dr with
    | none => cases fl <;> cases so <;> rfl
    | some spec => cases spec <;> cases fl <;> cases so <;> rfl

/-- C10: condition evaluation for formatting is total and null-safe.  A
null (NaN) cell matches a condition dict exactly when its operator is
is_null; and an evaluation that raises — here a non-numeric string pushed
through a numeric comparison — yields a non-match rather than an error. -/
theorem check_condition_null_safe :
    (∀ (now : PyDate) (v : Value) (c : Condition), pdIsna v = true →
        (checkCondition now v (.dict c) = true ↔ c.op = CondOp.isNull)) ∧
    (∀ (now : PyDate) (s : String) (t : Value) (op : CondOp),
        (op = .gt ∨ op = .lt ∨ op = .ge ∨ op = .le) →
        parsePyFloat s = none →
        checkCondition now (.str s) (.dict ⟨op, .scalar t⟩) = false) := by
  constructor
  · intro now v c hnull
    simp only [checkCondition, checkConditionCore, hnull, if_true, Option.getD_some,
      beq_iff_eq]
  · intro now s t op hop hparse
    have hok : valToFloat (Value.str s) = none := by simp [valToFloat, hparse]
    rcases hop with h | h | h | h <;> subst h <;>
      simp [checkCondition, checkConditionCore, pdIsna, hok]

/-- C7: a sheet's table is transformed exactly when the routing rules
select it — `apply_to_all_sheets` selects every sheet, a `target_sheet`
selects the case-insensitively matching names, neither selects everything —
unselected sheets pass through unchanged (same name, same table, same
position), and a target that matches no sheet leaves the whole artifact
unchanged without failing. -/
theorem multi_sheet_routing (applyAll : Bool) (target : Option String) (ops : OpSpec) :
    (∀ (sheets out : List (String × Df)),
        processSheets applyAll target ops sheets = some out →
        out.length = sheets.length ∧
        ∀ (i : Nat) (hi : i < sheets.length) (ho : i < out.length),
          (out.get ⟨i, ho⟩).1 = (sheets.get ⟨i, hi⟩).1 ∧
          (shouldProcessSheet applyAll target (sheets.get ⟨i, hi⟩).1 = false →
            out.get ⟨i, ho⟩ = sheets.get ⟨i, hi⟩) ∧
          (shouldProcessSheet applyAll target (sheets.get ⟨i, hi⟩).1 = true →
            msApplyOperations ops (sheets.get ⟨i, hi⟩).2 = some (out.get ⟨i, ho⟩).2)) ∧
    (∀ (t : String) (sheets : List (String × Df)),
        applyAll = false → target = some t →
        (∀ s ∈ sheets, strLowerEq s.1 t = false) →
        processSheets applyAll target ops sheets = some sheets) ∧
    (applyAll = true → ∀ n, shouldProcessSheet applyAll target n = true) ∧
    (∀ t n, applyAll = false → target = some t →
        (shouldProcessSheet applyAll target n = true ↔ strLowerEq n t = true)) ∧
    (applyAll = false → target = none → ∀ n, shouldProcessSheet applyAll target n = true) := by
  refine ⟨?_, ?_, ?_, ?_, ?_⟩
  · intro sheets
    induction sheets with
    | nil =>
        intro out h
        simp only [processSheets, Option.some.injEq] at h
        subst h
        exact ⟨rfl, fun i hi => absurd hi (by simp)⟩
    | cons s rest ih =>
        intro out h
        simp only [processSheets] at h
        cases hsp : shouldProcessSheet applyAll target s.1 with
        | false =>
            rw [hsp] at h
            simp only [Bool.false_eq_true, if_false] at h
            cases hrest : processSheets applyAll target ops rest with
            | none => rw [hrest] at h; simp at h
            | some out' =>
                rw [hrest] at h
                simp only [Option.map_some', Option.some.injEq] at h
                subst h
                obtain ⟨hlen, hpt⟩ := ih out' hrest
                refine ⟨by simp [hlen], ?_⟩
                intro i hi ho
                cases i with
                | zero =>
                    exact ⟨rfl, fun _ => rfl, fun htrue => absurd htrue (by simp [hsp])⟩
                | succ j =>
                    exact hpt j (Nat.lt_of_succ_lt_succ hi) (Nat.lt_of_succ_lt_succ ho)
        | true =>
            rw [hsp] at h
            simp only [if_true] at h
            cases hms : msApplyOperations ops s.2 with
            | none => rw [hms] at h; simp at h
            | some d =>
                rw [hms] at h
                simp only [Option.map_some'] at h
                cases hrest : processSheets applyAll target ops rest with
                | none => rw [hrest] at h; simp at h
                | some out' =>
                    rw [hrest] at h
                    simp only [Option.map_some', Option.some.injEq] at h
                    subst h
                    obtain ⟨hlen, hpt⟩ := ih out' hrest
                    refine ⟨by simp [hlen], ?_⟩
                    intro i hi ho
                    cases i with
                    | zero =>
                        exact ⟨rfl, fun hfalse => absurd hfalse (by simp [hsp]),
                          fun _ => by simpa using hms⟩
                    | succ j =>
                        exact hpt j (Nat.lt_of_succ_lt_succ hi) (Nat.lt_of_succ_lt_succ ho)
  · intro t sheets ha ht
    subst ha; subst ht
    induction sheets with
    | nil => intro _; rfl
    | cons s rest ih =>
        intro hnm
        have h1 : strLowerEq s.1 t = false := hnm s (List.mem_cons_self _ _)
        have h2 := ih (fun x hx => hnm x (List.mem_cons_of_mem _ hx))
        simp [processSheets, shouldProcessSheet, h1, h2]
  · intro ha n; simp [shouldProcessSheet, ha]
  · intro t n ha ht; subst ha; subst ht; simp [shouldProcessSheet]
  · intro ha ht n; subst ha; subst ht; simp [shouldProcessSheet]

/-- Witness for C7: on a two-sheet artifact, targeting "beta" transforms
only the Beta sheet (case-insensitive match) and leaves Alpha untouched;
targeting the absent sheet "Gamma" returns every sheet unchanged. -/
theorem multi_sheet_routing_witness :
    processSheets false (some "beta") exRemoveLastOps exSheets = some exSheetsOut ∧
    (exSheetsOut.length = exSheets.length ∧
      ∀ (i : Nat) (hi : i < exSheets.length) (ho : i < exSheetsOut.length),
        (exSheetsOut.get ⟨i, ho⟩).1 = (exSheets.get ⟨i, hi⟩).1 ∧
        (shouldProcessSheet false (some "beta") (exSheets.get ⟨i, hi⟩).1 = false →
          exSheetsOut.get ⟨i, ho⟩ = exSheets.get ⟨i, hi⟩) ∧
        (shouldProcessSheet false (some "beta") (exSheets.get ⟨i, hi⟩).1 = true →
          msApplyOperations exRemoveLastOps (exSheets.get ⟨i, hi⟩).2 =
            some (exSheetsOut.get ⟨i, ho⟩).2)) ∧
    processSheets false (some "Gamma") exRemoveLastOps exSheets = some exSheets :=
  ⟨by decide,
   (multi_sheet_routing false (some "beta") exRemoveLastOps).1 exSheets exSheetsOut
     (by decide),
   (multi_sheet_routing false (some "Gamma") exRemoveLastOps).2.1 "Gamma" exSheets
     rfl rfl (by decide)⟩

theorem forall₂_map_self {α β : Type} (R : α → β → Prop) (f : α → β)
    (h : ∀ a, R a (f a)) : ∀ l : List α, List.Forall₂ R l (l.map f)
  | [] => List.Forall₂.nil
  | a :: l => List.Forall₂.cons (h a) (forall₂_map_self R f h l)

/-- C8: a merge whose produced sheet names are collision-free yields one
sheet per input, in input order with the last-generated artifact's sheets
first, each sheet holding its table's rows plus one header row. -/
theorem merge_sheet_structure (lastGen : List (List Char × Df)) (uploads : List Upload)
    (h : ((mergeEntries lastGen uploads).map Prod.fst).Nodup) :
    ∃ wb, writeWorkbook (mergeEntries lastGen uploads) = some wb ∧
      wb.length = lastGen.length + uploads.length ∧
      wb.map Prod.fst =
        lastGen.map Prod.fst ++
          uploads.map (fun u => sanitizeSheetName (u.desired.getD u.filename)) ∧
      List.Forall₂ (fun (e : List Char × Df) (w : List Char × List (List Value)) =>
          w.1 = e.1 ∧ w.2.length = e.2.rows.length + 1)
        (mergeEntries lastGen uploads) wb := by
  refine ⟨(mergeEntries lastGen uploads).map
      (fun e => (e.1, (e.2.cols.map Value.str) :: e.2.rows)), ?_, ?_, ?_, ?_⟩
  · simp [writeWorkbook, h]
  · simp [mergeEntries]
  · simp [mergeEntries, List.map_append, List.map_map, Function.comp_def]
  · exact forall₂_map_self _ _ (fun e => ⟨rfl, by simp⟩) _

/-- Witness for C8: merging the previous one-sheet artifact with one
uploaded table yields two sheets, "Prev" first, with 2 and 3 rows. -/
theorem merge_sheet_structure_witness :
    ∃ wb, writeWorkbook (mergeEntries exLastGen exUploads) = some wb ∧
      wb.length = exLastGen.length + exUploads.length ∧
      wb.map Prod.fst =
        exLastGen.map Prod.fst ++
          exUploads.map (fun u => sanitizeSheetName (u.desired.getD u.filename)) ∧
      List.Forall₂ (fun (e : List Char × Df) (w : List Char × List (List Value)) =>
          w.1 = e.1 ∧ w.2.length = e.2.rows.length + 1)
        (mergeEntries exLastGen exUploads) wb :=
  merge_sheet_structure exLastGen exUploads (by decide)

/-- C9 (amended): every sheet name the merge computes for an upload is at
most 31 characters and contains none of the forbidden characters
\/*?:[] (each occurrence is replaced by an underscore). -/
theorem sanitize_sheet_name_valid (raw : List Char) :
    (sanitizeSheetName raw).length ≤ 31 ∧
    (∀ c ∈ sanitizeSheetName raw, invalidSheetChars.contains c = false) := by
  simp only [sanitizeSheetName]
  set r := (raw.take 31).map (fun c => if invalidSheetChars.contains c then '_' else c)
    with hr
  have hrlen : r.length ≤ 31 := by
    rw [hr, List.length_map, List.length_take]
    exact Nat.min_le_left _ _
  have hmem : ∀ c ∈ r, invalidSheetChars.contains c = false := by
    intro c hc
    rw [hr] at hc
    obtain ⟨x, hx, hfx⟩ := List.mem_map.mp hc
    by_cases hbad : invalidSheetChars.contains x = true
    · rw [← hfx, if_pos hbad]; decide
    · rw [← hfx, if_neg hbad]; exact Bool.eq_false_iff.mpr hbad
  have htake : ∀ k : Nat, (r.take k).length ≤ 31 := by
    intro k
    rw [List.length_take]
    exact le_trans (Nat.min_le_right _ _) hrlen
  have hmemtake : ∀ (k : Nat), ∀ c ∈ r.take k, invalidSheetChars.contains c = false :=
    fun k c hc => hmem c (List.take_subset _ _ hc)
  constructor
  · split
    · exact htake _
    · split
      · exact htake _
      · split
        · exact htake _
        · exact hrlen
  · split
    · exact hmemtake _
    · split
      · exact hmemtake _
      · split
        · exact hmemtake _
        · exact hmem

/-- Witness for C9's amended claim on a name containing every forbidden
character class. -/
theorem sanitize_sheet_name_valid_witness :
    (sanitizeSheetName "Report:2024/Q1*final?.xlsx".toList).length ≤ 31 ∧
    invalidSheetChars.contains 'R' = false :=
  ⟨(sanitize_sheet_name_valid "Report:2024/Q1*final?.xlsx".toList).1,
   (sanitize_sheet_name_valid "Report:2024/Q1*final?.xlsx".toList).2 'R' (by decide)⟩

/-- C9 counterexample: two uploads both named Data.csv produce the sheet
name "Data" twice — the merge code adds no numeric suffix, so the
produced names are not unique. -/
theorem merge_sheet_name_collision_counterexample :
    (mergeEntries [] [⟨none, "Data.csv".toList, ⟨["A"], []⟩⟩,
        ⟨none, "Data.csv".toList, ⟨["B"], []⟩⟩]).map Prod.fst =
      ["Data".toList, "Data".toList] ∧
    ¬ ((mergeEntries [] [⟨none, "Data.csv".toList, ⟨["A"], []⟩⟩,
        ⟨none, "Data.csv".toList, ⟨["B"], []⟩⟩]).map Prod.fst).Nodup := by
  constructor
  · decide
  · decide

theorem applyRulesOnce_eq_find (now : PyDate) (v : Value) (cell : Cell)
    (rules : List CfRule) :
    applyRulesOnce now v cell rules =
      match rules.find? (fun r => checkCondition now v r.cond) with
      | some r => { cell with fill := some (colorHex r.color) }
      | none => cell := by
  induction rules with
  | nil => rfl
  | cons r rest ih =>
      simp only [applyRulesOnce, List.find?]
      cases h : checkCondition now v r.cond <;> simp [h, ih]

theorem modify_id {α : Type} : ∀ (l : List α) (j : Nat), l.modify (fun a => a) j = l := by
  intro l
  induction l with
  | nil => intro j; simp
  | cons a t ih =>
      intro j
      cases j with
      | zero => simp [List.modify_zero_cons]
      | succ j => simp [List.modify_succ_cons, ih]

theorem modify_modify {α : Type} (f g : α → α) :
    ∀ (l : List α) (j : Nat), (l.modify f j).modify g j = l.modify (fun a => g (f a)) j := by
  intro l
  induction l with
  | nil => intro j; simp
  | cons a t ih =>
      intro j
      cases j with
      | zero => simp [List.modify_zero_cons]
      | succ j => simp [List.modify_succ_cons, ih]

theorem modify_if_getD {α : Type} (p : α → Bool) (h : α → α) (d : α) :
    ∀ (l : List α) (j : Nat),
      (if p (l.getD j d) then l.modify h j else l) =
        l.modify (fun a => if p a then h a else a) j := by
  intro l
  induction l with
  | nil => intro j; simp
  | cons a t ih =>
      intro j
      cases j with
      | zero =>
          cases hp : p a <;>
            simp [List.getD_cons_zero, List.modify_zero_cons, hp]
      | succ j =>
          simp only [List.getD_cons_succ, List.modify_succ_cons]
          rw [← ih j]
          cases hp : p (t.getD j d) <;> simp [hp]

theorem msCfPass_eq_map (c : Condition) (color : String) (j : Nat) :
    ∀ (g out : List (List Cell)), msCfPass c color j g = some out →
      out = g.map (fun row =>
        row.modify (fun cell =>
          if (msCfMatch cell.value c.op c.val).getD false then
            { cell with fill := some (msCfColorHex color) }
          else cell) j) := by
  intro g
  induction g with
  | nil =>
      intro out h
      simp only [msCfPass, Option.some.injEq] at h
      simp [← h]
  | cons row rest ih =>
      intro out h
      simp only [msCfPass] at h
      cases hm : msCfMatch ((row.getD j emptyCell).value) c.op c.val with
      | none => rw [hm] at h; simp at h
      | some b =>
          rw [hm] at h
          cases hrest : msCfPass c color j rest with
          | none => rw [hrest] at h; simp at h
          | some out' =>
              rw [hrest] at h
              simp only [Option.map_some', Option.some.injEq] at h
              rw [← h, List.map_cons, ih out' hrest]
              have hpb : (msCfMatch ((row.getD j emptyCell).value) c.op c.val).getD false
                  = b := by rw [hm]; rfl
              have hrow :
                  (if b then
                     row.modify (fun cell =>
                       { cell with fill := some (msCfColorHex color) }) j
                   else row) =
                    row.modify (fun cell =>
                      if (msCfMatch cell.value c.op c.val).getD false then
                        { cell with fill := some (msCfColorHex color) }
                      else cell) j := by
                rw [← hpb]
                exact modify_if_getD
                  (fun cell => (msCfMatch cell.value c.op c.val).getD false)
                  (fun cell => { cell with fill := some (msCfColorHex color) })
                  emptyCell row j
              rw [hrow]

theorem msCfRules_last_match (j : Nat) :
    ∀ (rules : List CfRule) (g out : List (List Cell)),
      msCfRules j rules g = some out →
      out = g.map (fun row =>
        row.modify (fun cell =>
          match rules.reverse.find? (fun r => msCfRuleMatches cell.value r) with
          | some r => { cell with fill := some (msCfColorHex r.color) }
          | none => cell) j) := by
  intro rules
  induction rules with
  | nil =>
      intro g out h
      simp only [msCfRules, Option.some.injEq] at h
      subst h
      simp only [List.reverse_nil, List.find?_nil]
      conv_lhs => rw [show g = g.map id from (List.map_id g).symm]
      exact List.map_congr_left (fun row _ => (modify_id row j).symm)
  | cons r rest ih =>
      intro g out h
      simp only [msCfRules] at h
      cases hc : r.cond with
      | simple v =>
          rw [hc] at h
          have h' : (none : Option (List (List Cell))) = some out := h
          simp at h'
      | dict c =>
          rw [hc] at h
          have h' : (match msCfPass c r.color j g with
                     | none => (none : Option (List (List Cell)))
                     | some g1 => msCfRules j rest g1) = some out := h
          cases hp : msCfPass c r.color j g with
          | none => rw [hp] at h'; simp at h'
          | some g1 =>
              rw [hp] at h'
              have hg1 := msCfPass_eq_map c r.color j g g1 hp
              have hout := ih g1 out h'
              rw [hout, hg1, List.map_map]
              apply List.map_congr_left
              intro row _
              simp only [Function.comp]
              rw [modify_modify]
              congr 1
              funext cell
              have hpr : msCfRuleMatches cell.value r
                  = (msCfMatch cell.value c.op c.val).getD false := by
                simp [msCfRuleMatches, hc]
              simp only [List.reverse_cons, List.find?_append]
              cases hmr : (msCfMatch cell.value c.op c.val).getD false with
              | false =>
                  have hfr : List.find? (fun r' => msCfRuleMatches cell.value r') [r]
                      = none := by
                    simp [List.find?, hpr, hmr]
                  cases hf : List.find? (fun r' => msCfRuleMatches cell.value r')
                      rest.reverse with
                  | none => simp [hf, hfr]
                  | some r' => simp [hf]
              | true =>
                  have hfr : List.find? (fun r' => msCfRuleMatches cell.value r') [r]
                      = some r := by
                    simp [List.find?, hpr, hmr]
                  cases hf : List.find? (fun r' => msCfRuleMatches cell.value r')
                      rest.reverse with
                  | none => simp [hf, hfr]
                  | some r' => simp [hf]

/-- C5 (amended): the single-sheet engine applies, per cell of the target
column, the fill of the first rule in the list whose condition matches —
later matching rules never override — while the multi-sheet path applies
every rule over the whole column in order, so each cell ends with the fill
of the LAST matching rule; in both, a cell matching no rule keeps its
fill. -/
theorem conditional_format_rule_order
    (now : PyDate) (ws : Ws) (col : String) (rules : List CfRule)
    (hcol : ws.cols.contains col = true) :
    (applyCondFormatSingle now ws (some col) rules =
      { ws with grid := ws.grid.map (fun row =>
          row.modify (fun cell =>
            match rules.find? (fun r => checkCondition now cell.value r.cond) with
            | some r => { cell with fill := some (colorHex r.color) }
            | none => cell) (ws.cols.indexOf col)) }) ∧
    (∀ g, msCfRules (ws.cols.indexOf col) rules ws.grid = some g →
      applyCondFormatMulti ws (some col) rules =
        { ws with grid := ws.grid.map (fun row =>
            row.modify (fun cell =>
              match rules.reverse.find? (fun r => msCfRuleMatches cell.value r) with
              | some r => { cell with fill := some (msCfColorHex r.color) }
              | none => cell) (ws.cols.indexOf col)) }) := by
  constructor
  · simp only [applyCondFormatSingle, hcol, if_true]
    congr 1
    apply List.map_congr_left
    intro row _
    congr 1
    funext cell
    exact applyRulesOnce_eq_find now cell.value cell rules
  · intro g hg
    have := msCfRules_last_match (ws.cols.indexOf col) rules ws.grid g hg
    simp only [applyCondFormatMulti, hcol, if_true, hg, this]

/-- C5 counterexample: on a cell matching both rules, the multi-sheet
conditional format leaves the LAST rule's red fill, not the first rule's
yellow — the claim's "first match wins, no later rule overrides" is false
for `_apply_conditional_format_to_sheet`. -/
theorem conditional_format_first_match_counterexample :
    msCfRuleMatches (Value.num 5) ⟨.dict ⟨CondOp.gt, .scalar (.num 0)⟩, "yellow"⟩ = true ∧
    msCfRuleMatches (Value.num 5) ⟨.dict ⟨CondOp.gt, .scalar (.num 4)⟩, "red"⟩ = true ∧
    applyCondFormatMulti exCfWs (some "X") exCfRules =
      ⟨["X"], [[⟨Value.num 5, some "FFFF0000", false⟩]]⟩ ∧
    msCfColorHex "yellow" = "FFFFFF00" ∧
    "FFFF0000" ≠ "FFFFFF00" := by
  refine ⟨by decide, by decide, by decide, by decide, by decide⟩

/-- Witness for C5's amended claim at the two-rule example: the
single-sheet path paints the cell with the first rule's yellow, the
multi-sheet path with the last rule's red. -/
theorem conditional_format_rule_order_witness :
    (applyCondFormatSingle ⟨2024, 5, 1⟩ exCfWs (some "X") exCfRules =
      { exCfWs with grid := exCfWs.grid.map (fun row =>
          row.modify (fun cell =>
            match exCfRules.find? (fun r => checkCondition ⟨2024, 5, 1⟩ cell.value r.cond) with
            | some r => { cell with fill := some (colorHex r.color) }
            | none => cell) (exCfWs.cols.indexOf "X")) }) ∧
    (∀ g, msCfRules (exCfWs.cols.indexOf "X") exCfRules exCfWs.grid = some g →
      applyCondFormatMulti exCfWs (some "X") exCfRules =
        { exCfWs with grid := exCfWs.grid.map (fun row =>
            row.modify (fun cell =>
              match exCfRules.reverse.find? (fun r => msCfRuleMatches cell.value r) with
              | some r => { cell with fill := some (msCfColorHex r.color) }
              | none => cell) (exCfWs.cols.indexOf "X")) }) :=
  conditional_format_rule_order ⟨2024, 5, 1⟩ exCfWs "X" exCfRules (by decide)

theorem mem_take_sorted_desc :
    ∀ (L : List Rat), List.Sorted (fun a b : Rat => b ≤ a) L →
      ∀ (n : Nat) (q : Rat), q ∈ L →
      (q ∈ L.take n ↔ L.countP (fun x => decide (q < x)) < n) := by
  intro L
  induction L with
  | nil => intro _ n q hq; simp at hq
  | cons a L ih =>
      intro hs n q hq
      obtain ⟨ha, hs'⟩ := List.sorted_cons.mp hs
      cases n with
      | zero => simp
      | succ m =>
          rw [List.take_succ_cons]
          by_cases hqa : q = a
          · subst hqa
            have hcount : L.countP (fun x => decide (q < x)) = 0 := by
              apply List.countP_eq_zero.mpr
              intro x hx
              simpa using not_lt.mpr (ha x hx)
            simp [List.countP_cons, hcount]
          · have hqL : q ∈ L := by
              rcases List.mem_cons.mp hq with h | h
              · exact absurd h hqa
              · exact h
            have hqa' : q < a := lt_of_le_of_ne (ha q hqL) hqa
            have hlhs : (q ∈ a :: L.take m) ↔ q ∈ L.take m := by
              constructor
              · intro h
                rcases List.mem_cons.mp h with h | h
                · exact absurd h hqa
                · exact h
              · exact fun h => List.mem_cons_of_mem _ h
            rw [hlhs, ih hs' m q hqL]
            have hstep : (a :: L).countP (fun x => decide (q < x))
                = L.countP (fun x => decide (q < x)) + 1 := by
              simp [List.countP_cons, hqa']
            rw [hstep]
            omega

theorem mem_take_sorted_asc :
    ∀ (L : List Rat), List.Sorted (fun a b : Rat => a ≤ b) L →
      ∀ (n : Nat) (q : Rat), q ∈ L →
      (q ∈ L.take n ↔ L.countP (fun x => decide (x < q)) < n) := by
  intro L
  induction L with
  | nil => intro _ n q hq; simp at hq
  | cons a L ih =>
      intro hs n q hq
      obtain ⟨ha, hs'⟩ := List.sorted_cons.mp hs
      cases n with
      | zero => simp
      | succ m =>
          rw [List.take_succ_cons]
          by_cases hqa : q = a
          · subst hqa
            have hcount : L.countP (fun x => decide (x < q)) = 0 := by
              apply List.countP_eq_zero.mpr
              intro x hx
              simpa using not_lt.mpr (ha x hx)
            simp [List.countP_cons, hcount]
          · have hqL : q ∈ L := by
              rcases List.mem_cons.mp hq with h | h
              · exact absurd h hqa
              · exact h
            have hqa' : a < q := lt_of_le_of_ne (ha q hqL) (fun h => hqa h.symm)
            have hlhs : (q ∈ a :: L.take m) ↔ q ∈ L.take m := by
              constructor
              · intro h
                rcases List.mem_cons.mp h with h | h
                · exact absurd h hqa
                · exact h
              · exact fun h => List.mem_cons_of_mem _ h
            rw [hlhs, ih hs' m q hqL]
            have hstep : (a :: L).countP (fun x => decide (x < q))
                = L.countP (fun x => decide (x < q)) + 1 := by
              simp [List.countP_cons, hqa']
            rw [hstep]
            omega

theorem mem_nlargest_iff (n : Int) (qs : List Rat) (q : Rat) (hq : q ∈ qs) :
    q ∈ nlargestVals n qs ↔ qs.countP (fun x => decide (q < x)) < n.toNat := by
  unfold nlargestVals
  have hperm := List.perm_insertionSort (fun a b : Rat => b ≤ a) qs
  have hsort := List.sorted_insertionSort (fun a b : Rat => b ≤ a) qs
  rw [mem_take_sorted_desc _ hsort n.toNat q (hperm.mem_iff.mpr hq),
    hperm.countP_eq]

theorem mem_nsmallest_iff (n : Int) (qs : List Rat) (q : Rat) (hq : q ∈ qs) :
    q ∈ nsmallestVals n qs ↔ qs.countP (fun x => decide (x < q)) < n.toNat := by
  unfold nsmallestVals
  have hperm := List.perm_insertionSort (fun a b : Rat => a ≤ b) qs
  have hsort := List.sorted_insertionSort (fun a b : Rat => a ≤ b) qs
  rw [mem_take_sorted_asc _ hsort n.toNat q (hperm.mem_iff.mpr hq),
    hperm.countP_eq]

theorem map_value_ite (b : Prop) [Decidable b] (row : List Cell) (fill : String) :
    (if b then row.map (fun cell => { cell with fill := some fill }) else row).map
      (fun c => c.value) = row.map (fun c => c.value) := by
  split
  · simp [List.map_map, Function.comp]
  · rfl

/-- C6: a topN/bottomN highlight_rows never changes the columns, the row
count, the row order or any cell value — it only sets fills — and on an
all-numeric column the rows that get the fill are exactly those whose
value has fewer than N values strictly above it (topN) resp. strictly
below it (bottomN), i.e. the rows whose value is among the N
largest/smallest values, ties included. -/
theorem highlight_top_bottom (now : PyDate) (ws : Ws) (col : String) (n : Int)
    (isTop : Bool) (color : String)
    (hcol : ws.cols.contains col = true)
    (hnum : (ws.grid.map (fun row =>
        (row.getD (ws.cols.indexOf col) emptyCell).value)).all valIsNum = true) :
    (highlightRows now ws (some col)
        (.dict ⟨if isTop then CondOp.topN else CondOp.bottomN,
                .scalar (.num (n : Rat))⟩) color).cols = ws.cols ∧
    (highlightRows now ws (some col)
        (.dict ⟨if isTop then CondOp.topN else CondOp.bottomN,
                .scalar (.num (n : Rat))⟩) color).grid.length = ws.grid.length ∧
    (∀ (i : Nat) (hi : i < ws.grid.length)
        (ho : i < (highlightRows now ws (some col)
          (.dict ⟨if isTop then CondOp.topN else CondOp.bottomN,
                  .scalar (.num (n : Rat))⟩) color).grid.length),
      (((highlightRows now ws (some col)
          (.dict ⟨if isTop then CondOp.topN else CondOp.bottomN,
                  .scalar (.num (n : Rat))⟩) color).grid.get ⟨i, ho⟩).map
            (fun c => c.value) =
        ((ws.grid.get ⟨i, hi⟩).map (fun c => c.value))) ∧
      ∀ q : Rat,
        ((ws.grid.get ⟨i, hi⟩).getD (ws.cols.indexOf col) emptyCell).value
          = Value.num q →
        (((if isTop then
              (numericVals (ws.grid.map (fun row =>
                (row.getD (ws.cols.indexOf col) emptyCell).value))).countP
                  (fun x => decide (q < x))
            else
              (numericVals (ws.grid.map (fun row =>
                (row.getD (ws.cols.indexOf col) emptyCell).value))).countP
                  (fun x => decide (x < q))) < n.toNat →
          (highlightRows now ws (some col)
            (.dict ⟨if isTop then CondOp.topN else CondOp.bottomN,
                    .scalar (.num (n : Rat))⟩) color).grid.get ⟨i, ho⟩ =
            (ws.grid.get ⟨i, hi⟩).map
              (fun c => { c with fill := some (colorHex color) })) ∧
        (¬ ((if isTop then
              (numericVals (ws.grid.map (fun row =>
                (row.getD (ws.cols.indexOf col) emptyCell).value))).countP
                  (fun x => decide (q < x))
            else
              (numericVals (ws.grid.map (fun row =>
                (row.getD (ws.cols.indexOf col) emptyCell).value))).countP
                  (fun x => decide (x < q))) < n.toNat) →
          (highlightRows now ws (some col)
            (.dict ⟨if isTop then CondOp.topN else CondOp.bottomN,
                    .scalar (.num (n : Rat))⟩) color).grid.get ⟨i, ho⟩ =
            ws.grid.get ⟨i, hi⟩))) := by
  have hall : (ws.grid.map (fun row =>
      (row.getD (ws.cols.indexOf col) emptyCell).value)).all valIsNumOrNull = true := by
    rw [List.all_eq_true] at hnum ⊢
    intro v hv
    have := hnum v hv
    cases v <;> simp_all [valIsNum, valIsNumOrNull]
  have hden : ((n : Rat)).den = 1 := Rat.den_intCast n
  have hnumc : ((n : Rat)).num = n := Rat.num_intCast n
  have hmemcol : col ∈ ws.cols := by simpa using hcol
  have hall' : ∀ a ∈ ws.grid,
      valIsNumOrNull ((a[ws.cols.indexOf col]?.getD emptyCell).value) = true := by
    intro a ha
    simpa using List.all_eq_true.mp hall _ (List.mem_map.mpr ⟨a, ha, rfl⟩)
  have hred : highlightRows now ws (some col)
      (.dict ⟨if isTop then CondOp.topN else CondOp.bottomN,
              .scalar (.num (n : Rat))⟩) color =
      { ws with grid := ws.grid.map (fun (row : List Cell) =>
          if (match (row.getD (ws.cols.indexOf col) emptyCell).value with
              | .num q =>
                  (if isTop
                   then nlargestVals n (numericVals (ws.grid.map (fun (r : List Cell) =>
                     (r.getD (ws.cols.indexOf col) emptyCell).value)))
                   else nsmallestVals n (numericVals (ws.grid.map (fun (r : List Cell) =>
                     (r.getD (ws.cols.indexOf col) emptyCell).value)))).contains q
              | _ => false) then
            row.map (fun (cell : Cell) => { cell with fill := some (colorHex color) })
          else row) } := by
    cases isTop <;>
      simp [highlightRows, topBottomKind, topBottomN, hden, hnumc, hmemcol, hall'] <;>
      (intro x hx hfalse; exact absurd (hall' x hx) (by simp [hfalse]))
  rw [hred]
  refine ⟨rfl, by simp, ?_⟩
  intro i hi ho
  simp only [List.get_eq_getElem, List.getElem_map]
  constructor
  · exact map_value_ite _ _ _
  · intro q hvq
    have hqmem : q ∈ numericVals (ws.grid.map (fun (r : List Cell) =>
        (r.getD (ws.cols.indexOf col) emptyCell).value)) := by
      apply List.mem_filterMap.mpr
      refine ⟨Value.num q, ?_, rfl⟩
      rw [← hvq]
      exact List.mem_map.mpr ⟨ws.grid[i], List.getElem_mem hi, rfl⟩
    have hcontains : ∀ (L : List Rat), L.contains q = true ↔ q ∈ L := by
      intro L; simp
    cases isTop with
    | true =>
        simp only [if_true]
        constructor
        · intro hlt
          have hmem : q ∈ nlargestVals n (numericVals (ws.grid.map (fun (r : List Cell) =>
              (r.getD (ws.cols.indexOf col) emptyCell).value))) :=
            (mem_nlargest_iff n _ q hqmem).mpr hlt
          rw [hvq]
          simp only [List.getD_eq_getElem?_getD] at hmem
          simp
          intro hcon
          exact absurd hmem hcon
        · intro hlt
          have hmem : q ∉ nlargestVals n (numericVals (ws.grid.map (fun (r : List Cell) =>
              (r.getD (ws.cols.indexOf col) emptyCell).value))) :=
            fun hcon => hlt ((mem_nlargest_iff n _ q hqmem).mp hcon)
          rw [hvq]
          simp only [List.getD_eq_getElem?_getD] at hmem
          simp
          intro hcon
          exact absurd hcon hmem
    | false =>
        simp only [Bool.false_eq_true, if_false]
        constructor
        · intro hlt
          have hmem : q ∈ nsmallestVals n (numericVals (ws.grid.map (fun (r : List Cell) =>
              (r.getD (ws.cols.indexOf col) emptyCell).value))) :=
            (mem_nsmallest_iff n _ q hqmem).mpr hlt
          rw [hvq]
          simp only [List.getD_eq_getElem?_getD] at hmem
          simp
          intro hcon
          exact absurd hmem hcon
        · intro hlt
          have hmem : q ∉ nsmallestVals n (numericVals (ws.grid.map (fun (r : List Cell) =>
              (r.getD (ws.cols.indexOf col) emptyCell).value))) :=
            fun hcon => hlt ((mem_nsmallest_iff n _ q hqmem).mp hcon)
          rw [hvq]
          simp only [List.getD_eq_getElem?_getD] at hmem
          simp
          intro hcon
          exact absurd hcon hmem

/-- Witness for C6 on the numeric column [5, 9, 5, 3] with n = 2:
the highlight keeps the column list and the row count. -/
theorem highlight_top_bottom_witness :
    (highlightRows ⟨2024, 1, 1⟩ exTopWs (some "S")
        (.dict ⟨if true then CondOp.topN else CondOp.bottomN,
                .scalar (.num ((2 : Int) : Rat))⟩) "green").cols = exTopWs.cols ∧
    (highlightRows ⟨2024, 1, 1⟩ exTopWs (some "S")
        (.dict ⟨if true then CondOp.topN else CondOp.bottomN,
                .scalar (.num ((2 : Int) : Rat))⟩) "green").grid.length
      = exTopWs.grid.length :=
  ⟨(highlight_top_bottom ⟨2024, 1, 1⟩ exTopWs "S" 2 true "green"
      (by decide) (by decide)).1,
   (highlight_top_bottom ⟨2024, 1, 1⟩ exTopWs "S" 2 true "green"
      (by decide) (by decide)).2.1⟩

theorem cellEq_iff (a b : Value) : cellEq a b = true ↔ a = b := by
  cases a <;> cases b <;> simp [cellEq]

theorem Grouped_tail (a : Value) (l : List Value) (h : Grouped (a :: l)) :
    Grouped l := by
  intro i j k hij hjk heq
  have hlen : (a :: l).length = l.length + 1 := rfl
  have := h ⟨i.val + 1, by simp⟩ ⟨j.val + 1, by simp⟩ ⟨k.val + 1, by simp⟩
    (by simpa using hij) (by simpa using hjk) (by simpa using heq)
  simpa using this

theorem Grouped_head_not_mem (v b : Value) (l : List Value)
    (h : Grouped (v :: b :: l)) (hne : b ≠ v) : v ∉ b :: l := by
  intro hmem
  obtain ⟨k, hk⟩ := List.mem_iff_get.mp hmem
  rcases Nat.eq_zero_or_pos k.val with h0 | hpos
  · apply hne
    have hkz : k = (⟨0, by simp⟩ : Fin (b :: l).length) := Fin.ext h0
    rw [hkz] at hk
    simpa using hk
  · apply hne
    have hk1 : k.val + 1 < (v :: b :: l).length := by
      have := k.isLt
      simp only [List.length_cons] at this ⊢
      omega
    have heq0 : (v :: b :: l).get ⟨0, by simp⟩ = (v :: b :: l).get ⟨k.val + 1, hk1⟩ := by
      have : (v :: b :: l).get ⟨k.val + 1, hk1⟩ = (b :: l).get k := by
        simp [List.get_cons_succ]
      rw [this, hk]
      rfl
    have happ := h ⟨0, by simp⟩ ⟨1, by simp⟩ ⟨k.val + 1, hk1⟩
      (by simp) (by simpa using hpos) heq0
    simpa using happ

theorem scanGroupsGo_length :
    ∀ (vs : List Value) (row start : Nat) (cur : Value),
      (∀ v ∈ vs, v ≠ Value.null) → cur ≠ Value.null →
      (scanGroupsGo vs row cur start).length = boundaries cur vs + 1 := by
  intro vs
  induction vs with
  | nil => intro row start cur _ hcur; simp [scanGroupsGo, hcur, boundaries]
  | cons v rest ih =>
      intro row start cur hnn hcur
      have hv : v ≠ Value.null := hnn v (List.mem_cons_self _ _)
      have hrest : ∀ x ∈ rest, x ≠ Value.null :=
        fun x hx => hnn x (List.mem_cons_of_mem _ hx)
      by_cases heq : cellEq v cur = true
      · simp [scanGroupsGo, hcur, heq, boundaries, ih (row + 1) start v hrest hv]
      · simp only [scanGroupsGo, boundaries]
        rw [if_pos (by simp [hcur, heq] : (decide ¬cur = Value.null && !cellEq v cur) = true)]
        simp [heq, ih (row + 1) row v hrest hv]
        omega

theorem boundaries_toFinset_card :
    ∀ (rest : List Value) (v : Value), Grouped (v :: rest) →
      boundaries v rest + 1 = (v :: rest).toFinset.card := by
  intro rest
  induction rest with
  | nil => intro v _; simp [boundaries]
  | cons b rest' ih =>
      intro v hgrp
      have htail := ih b (Grouped_tail _ _ hgrp)
      by_cases heq : b = v
      · subst heq
        have hbb : cellEq b b = true := (cellEq_iff b b).mpr rfl
        simp only [boundaries, hbb, if_true, Nat.zero_add]
        rw [htail]
        simp [List.toFinset_cons]
      · have hnotmem : v ∉ b :: rest' := Grouped_head_not_mem v b rest' hgrp heq
        have hb : cellEq b v = false := by
          cases hc : cellEq b v
          · rfl
          · exact absurd ((cellEq_iff b v).mp hc) heq
        simp only [boundaries, hb, Bool.false_eq_true, if_false, List.toFinset_cons]
        rw [Finset.card_insert_of_not_mem (by simpa using hnotmem)]
        have htail' : boundaries b rest' + 1 = (insert b rest'.toFinset).card := by
          rw [show (insert b rest'.toFinset) = (b :: rest').toFinset by simp]
          exact htail
        omega

theorem scanGroups_length (vs : List Value)
    (hnn : ∀ v ∈ vs, v ≠ Value.null) (hgrp : Grouped vs) :
    (scanGroups vs).length = vs.toFinset.card := by
  cases vs with
  | nil => simp [scanGroups, scanGroupsGo]
  | cons v rest =>
      have hv : v ≠ Value.null := hnn v (List.mem_cons_self _ _)
      have hrest : ∀ x ∈ rest, x ≠ Value.null :=
        fun x hx => hnn x (List.mem_cons_of_mem _ hx)
      have step : scanGroups (v :: rest) = scanGroupsGo rest 3 v 2 := by
        simp [scanGroups, scanGroupsGo]
      rw [step, scanGroupsGo_length rest 3 2 v hrest hv]
      exact boundaries_toFinset_card rest v hgrp

theorem scanGroupsGo_insertAt_le :
    ∀ (vs : List Value) (row start : Nat) (cur : Value),
      ∀ g ∈ scanGroupsGo vs row cur start, g.insertAt ≤ row + vs.length := by
  intro vs
  induction vs with
  | nil =>
      intro row start cur g hg
      by_cases hcur : cur = Value.null
      · simp [scanGroupsGo, hcur] at hg
      · simp [scanGroupsGo, hcur] at hg
        subst hg
        simp
  | cons v rest ih =>
      intro row start cur g hg
      simp only [scanGroupsGo] at hg
      by_cases hcond : (decide ¬cur = Value.null && !cellEq v cur) = true
      · rw [if_pos hcond] at hg
        rcases List.mem_cons.mp hg with h | h
        · subst h
          simp only [List.length_cons]
          omega
        · have := ih (row + 1) row v g h
          simp only [List.length_cons]
          omega
      · rw [if_neg hcond] at hg
        have := ih (row + 1) start v g hg
        simp only [List.length_cons]
        omega

theorem insertSubtotalRow_count_eq_P (labelSuffix : String) (gIdx aIdx w : Nat)
    (grid : List (List Cell)) (grp : SubtotalGroup) :
    insertSubtotalRow labelSuffix .count gIdx aIdx w grid grp
      = some (insertSubtotalRowP labelSuffix gIdx aIdx w grid grp) := rfl

theorem insertIdx_getElem?_lt {α : Type} (l : List α) (x : α) (i j : Nat)
    (hj : j < i) (hi : i ≤ l.length) :
    (l.insertIdx i x)[j]? = l[j]? := by
  have hjl : j < l.length := lt_of_lt_of_le hj hi
  rw [List.getElem?_eq_getElem (by rw [List.length_insertIdx _ _ hi]; omega),
    List.getElem?_eq_getElem hjl]
  exact congrArg some (List.getElem_insertIdx_of_lt l x i j hj hjl)

theorem insertIdx_getElem?_self {α : Type} (l : List α) (x : α) (i : Nat)
    (hi : i ≤ l.length) :
    (l.insertIdx i x)[i]? = some x := by
  rw [List.getElem?_eq_getElem (by rw [List.length_insertIdx _ _ hi]; omega)]
  exact congrArg some (List.getElem_insertIdx_self l x i hi)

theorem insertIdx_getElem?_ge {α : Type} (l : List α) (x : α) (i p : Nat)
    (hp : i ≤ p) (hi : i ≤ l.length) :
    (l.insertIdx i x)[p + 1]? = l[p]? := by
  by_cases hpl : p < l.length
  · obtain ⟨k, rfl⟩ : ∃ k, p = i + k := ⟨p - i, by omega⟩
    rw [List.getElem?_eq_getElem (show i + k + 1 < (l.insertIdx i x).length by
        rw [List.length_insertIdx _ _ hi]; omega),
      List.getElem?_eq_getElem hpl]
    exact congrArg some (List.getElem_insertIdx_add_succ l x i k hpl)
  · rw [List.getElem?_eq_none
        (show (l.insertIdx i x).length ≤ p + 1 by rw [List.length_insertIdx _ _ hi]; omega),
      List.getElem?_eq_none (show l.length ≤ p by omega)]

theorem insertSubtotalRowP_length (ls : String) (gIdx aIdx w : Nat)
    (grid : List (List Cell)) (grp : SubtotalGroup)
    (h : grp.insertAt - 2 ≤ grid.length) :
    (insertSubtotalRowP ls gIdx aIdx w grid grp).length = grid.length + 1 := by
  simp only [insertSubtotalRowP, setCell, List.length_modify]
  exact List.length_insertIdx _ _ h

theorem stepP_getElem_lt (ls : String) (gIdx aIdx w : Nat)
    (grid : List (List Cell)) (grp : SubtotalGroup) (j : Nat)
    (hj : j < grp.insertAt - 2) (h : grp.insertAt - 2 ≤ grid.length) :
    (insertSubtotalRowP ls gIdx aIdx w grid grp)[j]? = grid[j]? := by
  simp only [insertSubtotalRowP, setCell]
  rw [List.getElem?_modify_ne _ _ (by omega : grp.insertAt - 2 ≠ j),
    List.getElem?_modify_ne _ _ (by omega : grp.insertAt - 2 ≠ j),
    List.getElem?_modify_ne _ _ (by omega : grp.insertAt - 2 ≠ j),
    insertIdx_getElem?_lt _ _ _ _ hj h]

theorem stepP_getElem_ge (ls : String) (gIdx aIdx w : Nat)
    (grid : List (List Cell)) (grp : SubtotalGroup) (p : Nat)
    (hp : grp.insertAt - 2 ≤ p) (h : grp.insertAt - 2 ≤ grid.length) :
    (insertSubtotalRowP ls gIdx aIdx w grid grp)[p + 1]? = grid[p]? := by
  simp only [insertSubtotalRowP, setCell]
  rw [List.getElem?_modify_ne _ _ (by omega : grp.insertAt - 2 ≠ p + 1),
    List.getElem?_modify_ne _ _ (by omega : grp.insertAt - 2 ≠ p + 1),
    List.getElem?_modify_ne _ _ (by omega : grp.insertAt - 2 ≠ p + 1),
    insertIdx_getElem?_ge _ _ _ _ hp h]

theorem countVal_congr (grid1 grid2 : List (List Cell)) (aIdx s e : Nat)
    (hs2 : 2 ≤ s)
    (h : ∀ j, s - 2 ≤ j → j + 2 ≤ e → grid1.getD j [] = grid2.getD j []) :
    countVal grid1 aIdx s e = countVal grid2 aIdx s e := by
  simp only [countVal, rangeVals]
  congr 2
  apply List.map_congr_left
  intro k hk
  rw [List.mem_range] at hk
  rw [h (s - 2 + k) (by omega) (by omega)]

theorem stepP_getElem_self (ls : String) (gIdx aIdx w : Nat)
    (grid : List (List Cell)) (grp : SubtotalGroup)
    (hIA : grp.insertAt = grp.endRow + 1) (hs2 : 2 ≤ grp.startRow)
    (hse : grp.startRow ≤ grp.endRow) (h : grp.insertAt - 2 ≤ grid.length) :
    (insertSubtotalRowP ls gIdx aIdx w grid grp)[grp.insertAt - 2]? =
      some (subtotalRow ls w gIdx aIdx grp.name
        (countVal grid aIdx grp.startRow grp.endRow)) := by
  have hq : countVal
      (List.modify (fun row => List.modify
          (fun cell => { cell with value := Value.str (valToStr grp.name ++ ls) }) gIdx row)
        (grp.insertAt - 2)
        (List.insertIdx (grp.insertAt - 2) (List.replicate w emptyCell) grid))
      aIdx grp.startRow grp.endRow
      = countVal grid aIdx grp.startRow grp.endRow := by
    apply countVal_congr _ _ _ _ _ hs2
    intro j hj1 hj2
    have hji : j < grp.insertAt - 2 := by omega
    simp only [List.getD_eq_getElem?_getD]
    rw [List.getElem?_modify_ne _ _ (by omega : grp.insertAt - 2 ≠ j),
      insertIdx_getElem?_lt _ _ _ _ hji h]
  simp only [insertSubtotalRowP, setCell]
  rw [List.getElem?_modify_eq, List.getElem?_modify_eq, List.getElem?_modify_eq,
    insertIdx_getElem?_self _ _ _ h]
  simp only [Option.map_some]
  rw [hq]
  rfl

theorem scanGroupsGo_insertAt_ge :
    ∀ (vs : List Value) (row start : Nat) (cur : Value),
      ∀ g ∈ scanGroupsGo vs row cur start, row ≤ g.insertAt := by
  intro vs
  induction vs with
  | nil =>
      intro row start cur g hg
      by_cases hcur : cur = Value.null
      · simp [scanGroupsGo, hcur] at hg
      · simp [scanGroupsGo, hcur] at hg
        subst hg
        simp
  | cons v rest ih =>
      intro row start cur g hg
      simp only [scanGroupsGo] at hg
      by_cases hcond : (decide ¬cur = Value.null && !cellEq v cur) = true
      · rw [if_pos hcond] at hg
        rcases List.mem_cons.mp hg with h | h
        · subst h
          simp
        · have := ih (row + 1) row v g h
          omega
      · rw [if_neg hcond] at hg
        have := ih (row + 1) start v g hg
        omega

theorem scanGroupsGo_wf :
    ∀ (vs : List Value) (row start : Nat) (cur : Value),
      2 ≤ start → (start < row ∨ (start = row ∧ cur = Value.null)) →
      ∀ g ∈ scanGroupsGo vs row cur start,
        g.insertAt = g.endRow + 1 ∧ 2 ≤ g.startRow ∧ g.startRow ≤ g.endRow := by
  intro vs
  induction vs with
  | nil =>
      intro row start cur hs2 hinv g hg
      by_cases hcur : cur = Value.null
      · simp [scanGroupsGo, hcur] at hg
      · simp [scanGroupsGo, hcur] at hg
        subst hg
        have hsr : start < row := by
          rcases hinv with h | ⟨_, hc⟩
          · exact h
          · exact absurd hc hcur
        refine ⟨by simp; omega, by simpa using hs2, by simp; omega⟩
  | cons v rest ih =>
      intro row start cur hs2 hinv g hg
      simp only [scanGroupsGo] at hg
      by_cases hcond : (decide ¬cur = Value.null && !cellEq v cur) = true
      · rw [if_pos hcond] at hg
        have hcur : cur ≠ Value.null := by
          have h1 := (Bool.and_eq_true _ _).mp hcond
          exact of_decide_eq_true h1.1
        have hsr : start < row := by
          rcases hinv with h | ⟨_, hc⟩
          · exact h
          · exact absurd hc hcur
        rcases List.mem_cons.mp hg with h | h
        · subst h
          refine ⟨by simp; omega, by simpa using hs2, by simp; omega⟩
        · exact ih (row + 1) row v (by omega) (Or.inl (by omega)) g h
      · rw [if_neg hcond] at hg
        have hlt : start < row + 1 := by
          rcases hinv with h | ⟨h, _⟩ <;> omega
        exact ih (row + 1) start v hs2 (Or.inl hlt) g hg

theorem scanGroupsGo_pairwise :
    ∀ (vs : List Value) (row start : Nat) (cur : Value),
      List.Pairwise (fun a b => a.insertAt < b.insertAt) (scanGroupsGo vs row cur start) := by
  intro vs
  induction vs with
  | nil =>
      intro row start cur
      by_cases hcur : cur = Value.null
      · simp [scanGroupsGo, hcur]
      · simp [scanGroupsGo, hcur]
  | cons v rest ih =>
      intro row start cur
      simp only [scanGroupsGo]
      by_cases hcond : (decide ¬cur = Value.null && !cellEq v cur) = true
      · rw [if_pos hcond]
        refine List.pairwise_cons.mpr ⟨?_, ih (row + 1) row v⟩
        intro g hg
        have := scanGroupsGo_insertAt_ge rest (row + 1) row v g hg
        simp only []
        omega
      · rw [if_neg hcond]
        exact ih (row + 1) start v

theorem scanGroupsGo_name_correct :
    ∀ (vs₀ vs : List Value) (row start : Nat) (cur : Value),
      (∀ x ∈ vs₀, x ≠ Value.null) →
      2 ≤ row → 2 ≤ start →
      vs = vs₀.drop (row - 2) →
      (∀ r, start ≤ r → r < row → vs₀.getD (r - 2) Value.null = cur) →
      ∀ g ∈ scanGroupsGo vs row cur start,
        ∀ r, g.startRow ≤ r → r ≤ g.endRow →
          vs₀.getD (r - 2) Value.null = g.name := by
  intro vs₀ vs
  induction vs generalizing vs₀ with
  | nil =>
      intro row start cur hnn hrow hstart hdrop hprev g hg r hr1 hr2
      by_cases hcur : cur = Value.null
      · simp [scanGroupsGo, hcur] at hg
      · simp [scanGroupsGo, hcur] at hg
        subst hg
        exact hprev r hr1 (by simp at hr2 ⊢; omega)
  | cons v rest ih =>
      intro row start cur hnn hrow hstart hdrop hprev g hg r hr1 hr2
      have h0 : vs₀[row - 2]? = some v := by
        have h1 := List.getElem?_drop vs₀ (row - 2) 0
        rw [← hdrop] at h1
        simpa using h1.symm
      have hrowlen : row - 2 < vs₀.length := by
        by_contra hge
        rw [List.getElem?_eq_none (by omega)] at h0
        exact absurd h0 (by simp)
      have hvnn : v ≠ Value.null := hnn v (List.getElem?_mem h0)
      have hvrow : vs₀.getD (row - 2) Value.null = v := by
        simp [List.getD_eq_getElem?_getD, h0]
      have hdrop' : rest = vs₀.drop (row + 1 - 2) := by
        have h1 : (v :: rest).drop 1 = rest := rfl
        rw [hdrop, List.drop_drop] at h1
        rw [← h1]
        congr 1
        omega
      simp only [scanGroupsGo] at hg
      by_cases hcond : (decide ¬cur = Value.null && !cellEq v cur) = true
      · rw [if_pos hcond] at hg
        rcases List.mem_cons.mp hg with hgh | hgt
        · subst hgh
          refine hprev r hr1 ?_
          simp only at hr2
          omega
        · have hprev' : ∀ r, row ≤ r → r < row + 1 →
              vs₀.getD (r - 2) Value.null = v := by
            intro r h1 h2
            have : r = row := by omega
            subst this
            exact hvrow
          exact ih vs₀ (row + 1) row v hnn (by omega) (by omega) hdrop' hprev'
            g hgt r hr1 hr2
      · rw [if_neg hcond] at hg
        by_cases hcc : cellEq v cur = true
        · have hvc : v = cur := (cellEq_iff v cur).mp hcc
          have hprev' : ∀ r, start ≤ r → r < row + 1 →
              vs₀.getD (r - 2) Value.null = v := by
            intro r h1 h2
            by_cases hlt : r < row
            · rw [hvc]
              exact hprev r h1 hlt
            · have : r = row := by omega
              subst this
              exact hvrow
          exact ih vs₀ (row + 1) start v hnn (by omega) hstart hdrop' hprev'
            g hg r hr1 hr2
        · have hcur : cur = Value.null := by
            by_contra hne
            apply hcond
            simp [hne, hcc]
          have hsr : ¬ start < row := by
            intro hlt
            have h2 := hprev start (le_refl _) hlt
            have hbound : start - 2 < vs₀.length := by omega
            have hmem : vs₀.getD (start - 2) Value.null ∈ vs₀ := by
              rw [List.getD_eq_getElem?_getD, List.getElem?_eq_getElem hbound]
              simp
            rw [h2, hcur] at hmem
            exact hnn _ hmem rfl
          have hprev' : ∀ r, start ≤ r → r < row + 1 →
              vs₀.getD (r - 2) Value.null = v := by
            intro r h1 h2
            have : r = row := by omega
            subst this
            exact hvrow
          exact ih vs₀ (row + 1) start v hnn (by omega) hstart hdrop' hprev'
            g hg r hr1 hr2

theorem foldr_insert_char (ls : String) (gIdx aIdx w : Nat) :
    ∀ (gs : List SubtotalGroup) (grid : List (List Cell)),
      List.Pairwise (fun a b => a.insertAt < b.insertAt) gs →
      (∀ grp ∈ gs, grp.insertAt = grp.endRow + 1 ∧ 2 ≤ grp.startRow ∧
        grp.startRow ≤ grp.endRow ∧ grp.insertAt - 2 ≤ grid.length) →
      (gs.foldr (fun grp acc => insertSubtotalRowP ls gIdx aIdx w acc grp) grid).length
          = grid.length + gs.length ∧
      (∀ k, k < gs.length →
        (gs.foldr (fun grp acc => insertSubtotalRowP ls gIdx aIdx w acc grp)
            grid)[(gs.getD k defGrp).insertAt - 2 + k]? =
          some (subtotalRow ls w gIdx aIdx (gs.getD k defGrp).name
            (countVal grid aIdx (gs.getD k defGrp).startRow (gs.getD k defGrp).endRow))) ∧
      (∀ j, j < grid.length →
        (gs.foldr (fun grp acc => insertSubtotalRowP ls gIdx aIdx w acc grp)
            grid)[j + gs.countP (fun grp => decide (grp.insertAt - 2 ≤ j))]? = grid[j]?) := by
  intro gs
  induction gs with
  | nil =>
      intro grid _ _
      refine ⟨by simp, by simp, ?_⟩
      intro j hj
      simp
  | cons g rest ih =>
      intro grid hpw hwf
      obtain ⟨hglt, hpw'⟩ := List.pairwise_cons.mp hpw
      obtain ⟨hgIA, hgs2, hgse, hgle⟩ := hwf g (List.mem_cons_self _ _)
      have hwf' := fun grp hgrp => hwf grp (List.mem_cons_of_mem _ hgrp)
      obtain ⟨ihlen, ihk, ihj⟩ := ih grid hpw' hwf'
      have hfar : ∀ b ∈ rest, g.insertAt - 2 + 1 ≤ b.insertAt - 2 := by
        intro b hb
        have h1 := hglt b hb
        obtain ⟨hbIA, hbs2, hbse, _⟩ := hwf' b hb
        omega
      have hIN : g.insertAt - 2 ≤
          (rest.foldr (fun grp acc => insertSubtotalRowP ls gIdx aIdx w acc grp) grid).length := by
        rw [ihlen]
        omega
      simp only [List.foldr_cons]
      refine ⟨?_, ?_, ?_⟩
      · rw [insertSubtotalRowP_length _ _ _ _ _ _ hIN, ihlen, List.length_cons]
        omega
      · intro k hk
        cases k with
        | zero =>
            simp only [List.getD_cons_zero, Nat.add_zero]
            rw [stepP_getElem_self _ _ _ _ _ _ hgIA hgs2 hgse hIN]
            congr 2
            apply countVal_congr _ _ _ _ _ hgs2
            intro j hj1 hj2
            have hji : j < g.insertAt - 2 := by omega
            have hjg : j < grid.length := by omega
            have hcp : rest.countP (fun grp => decide (grp.insertAt - 2 ≤ j)) = 0 := by
              rw [List.countP_eq_zero]
              intro b hb
              have := hfar b hb
              simp only [decide_eq_true_eq]
              omega
            have := ihj j hjg
            rw [hcp, Nat.add_zero] at this
            simp only [List.getD_eq_getElem?_getD, this]
        | succ k' =>
            have hk' : k' < rest.length := by
              simpa using hk
            simp only [List.getD_cons_succ]
            have hbmem : rest.getD k' defGrp ∈ rest := by
              rw [List.getD_eq_getElem _ _ hk']
              exact List.getElem_mem hk'
            have hbfar := hfar _ hbmem
            have hpos : (rest.getD k' defGrp).insertAt - 2 + (k' + 1)
                = ((rest.getD k' defGrp).insertAt - 2 + k') + 1 := by omega
            rw [hpos, stepP_getElem_ge _ _ _ _ _ _ _ (by omega) hIN]
            exact ihk k' hk'
      · intro j hj
        by_cases hji : g.insertAt - 2 ≤ j
        · have hcp : (g :: rest).countP (fun grp => decide (grp.insertAt - 2 ≤ j))
              = rest.countP (fun grp => decide (grp.insertAt - 2 ≤ j)) + 1 := by
            rw [List.countP_cons]
            simp [hji]
          rw [hcp, show j + (rest.countP (fun grp => decide (grp.insertAt - 2 ≤ j)) + 1)
              = (j + rest.countP (fun grp => decide (grp.insertAt - 2 ≤ j))) + 1 by omega,
            stepP_getElem_ge _ _ _ _ _ _ _ (by omega) hIN]
          exact ihj j hj
        · have hcp0 : rest.countP (fun grp => decide (grp.insertAt - 2 ≤ j)) = 0 := by
            rw [List.countP_eq_zero]
            intro b hb
            have := hfar b hb
            simp only [decide_eq_true_eq]
            omega
          have hcp : (g :: rest).countP (fun grp => decide (grp.insertAt - 2 ≤ j)) = 0 := by
            rw [List.countP_cons, hcp0]
            simp [hji]
          rw [hcp, Nat.add_zero, stepP_getElem_lt _ _ _ _ _ _ _ (by omega) hIN]
          have := ihj j hj
          rw [hcp0, Nat.add_zero] at this
          exact this

theorem subtotalRow_bold_fill (ls : String) (w gIdx aIdx : Nat) (name : Value)
    (q : Rat) :
    ∀ cell ∈ subtotalRow ls w gIdx aIdx name q,
      cell.bold = true ∧ cell.fill = some "FFE0E0E0" := by
  intro cell hcell
  simp only [subtotalRow, List.mem_map] at hcell
  obtain ⟨c, _, rfl⟩ := hcell
  exact ⟨rfl, rfl⟩

theorem foldlM_insert_count_eq (ls : String) (gIdx aIdx w : Nat) :
    ∀ (gs : List SubtotalGroup) (grid : List (List Cell)),
      gs.foldlM (insertSubtotalRow ls .count gIdx aIdx w) grid
        = some (gs.foldl (insertSubtotalRowP ls gIdx aIdx w) grid) := by
  intro gs
  induction gs with
  | nil => intro grid; rfl
  | cons g rest ih =>
      intro grid
      rw [List.foldlM_cons, insertSubtotalRow_count_eq_P]
      simpa using ih (insertSubtotalRowP ls gIdx aIdx w grid g)

/-- C1 (amended): on a table whose group-by column values are non-null and
contiguous ("sorted") with g distinct values, the subtotal inserter (with
function count, either label flavour) succeeds and its output is fully
characterised: it has exactly rows + g data rows; the scanner finds exactly
g groups; after each group (at row `insertAt - 2 + k` for the k-th group,
immediately below the group's own rows) sits exactly the inserted subtotal
row — every cell bold with the neutral FFE0E0E0 fill, the group label in
the group-by column and the plain numeric count of the group's
aggregate-column values in the aggregate column (`subtotalRow`), the
label value being exactly the group-by value every row of that group
carries — and every original data row is preserved unchanged and in order
at its shifted position; on the spec's own scenario (Employer = [A, A, B],
Trainer = [x, y, z], count) the multi-sheet path yields exactly the 5 rows
A, A, "A Count" = 2, B, "B Count" = 1, while the single-sheet engine
yields the same rows labelled "A Subtotal" / "B Subtotal". -/
theorem subtotals_structure :
    (∀ (labelSuffix groupBy aggCol : String) (ws : Ws),
        ws.cols.contains groupBy = true →
        ws.cols.contains aggCol = true →
        (∀ v ∈ ws.grid.map (fun (row : List Cell) =>
            (row.getD (ws.cols.indexOf groupBy) emptyCell).value), v ≠ Value.null) →
        Grouped (ws.grid.map (fun (row : List Cell) =>
            (row.getD (ws.cols.indexOf groupBy) emptyCell).value)) →
        ∃ out, applySubtotals labelSuffix .count groupBy aggCol ws = some out ∧
          ∀ gs, gs = scanGroups (ws.grid.map (fun (row : List Cell) =>
              (row.getD (ws.cols.indexOf groupBy) emptyCell).value)) →
            gs.length = (ws.grid.map (fun (row : List Cell) =>
              (row.getD (ws.cols.indexOf groupBy) emptyCell).value)).toFinset.card ∧
            out.grid.length = ws.grid.length + gs.length ∧
            (∀ k, k < gs.length →
              out.grid[(gs.getD k defGrp).insertAt - 2 + k]? =
                some (subtotalRow labelSuffix ws.cols.length (ws.cols.indexOf groupBy)
                  (ws.cols.indexOf aggCol) (gs.getD k defGrp).name
                  (countVal ws.grid (ws.cols.indexOf aggCol)
                    (gs.getD k defGrp).startRow (gs.getD k defGrp).endRow)) ∧
              (∀ cell ∈ out.grid.getD ((gs.getD k defGrp).insertAt - 2 + k) [],
                cell.bold = true ∧ cell.fill = some "FFE0E0E0") ∧
              (∀ r, (gs.getD k defGrp).startRow ≤ r → r ≤ (gs.getD k defGrp).endRow →
                (ws.grid.map (fun (row : List Cell) =>
                  (row.getD (ws.cols.indexOf groupBy) emptyCell).value)).getD
                    (r - 2) Value.null = (gs.getD k defGrp).name)) ∧
            (∀ j, j < ws.grid.length →
              out.grid[j + gs.countP (fun grp => decide (grp.insertAt - 2 ≤ j))]? =
                ws.grid[j]?)) ∧
    applySubtotalsMulti .count "Employer" "Trainer" exSubWs = some exSubOutMulti ∧
    applySubtotalsSingle .count "Employer" "Trainer" exSubWs = some exSubOutSingle := by
  refine ⟨?_, by decide, by decide⟩
  intro labelSuffix groupBy aggCol ws hg ha hnn hgrp
  have hbound : ∀ g ∈ scanGroups (ws.grid.map (fun (row : List Cell) =>
      (row.getD (ws.cols.indexOf groupBy) emptyCell).value)),
      g.insertAt - 2 ≤ ws.grid.length := by
    intro g hgmem
    have hle := scanGroupsGo_insertAt_le
      (ws.grid.map (fun (row : List Cell) =>
        (row.getD (ws.cols.indexOf groupBy) emptyCell).value)) 2 2 Value.null g hgmem
    have hlen : (ws.grid.map (fun (row : List Cell) =>
        (row.getD (ws.cols.indexOf groupBy) emptyCell).value)).length
        = ws.grid.length := by simp
    omega
  have hwf : ∀ grp ∈ scanGroups (ws.grid.map (fun (row : List Cell) =>
      (row.getD (ws.cols.indexOf groupBy) emptyCell).value)),
      grp.insertAt = grp.endRow + 1 ∧ 2 ≤ grp.startRow ∧
        grp.startRow ≤ grp.endRow ∧ grp.insertAt - 2 ≤ ws.grid.length := by
    intro grp hmem
    obtain ⟨h1, h2, h3⟩ := scanGroupsGo_wf
      (ws.grid.map (fun (row : List Cell) =>
        (row.getD (ws.cols.indexOf groupBy) emptyCell).value)) 2 2 Value.null
      (by omega) (Or.inr ⟨rfl, rfl⟩) grp hmem
    exact ⟨h1, h2, h3, hbound grp hmem⟩
  have hpw := scanGroupsGo_pairwise
    (ws.grid.map (fun (row : List Cell) =>
      (row.getD (ws.cols.indexOf groupBy) emptyCell).value)) 2 2 Value.null
  obtain ⟨hlen, hks, hjs⟩ := foldr_insert_char labelSuffix (ws.cols.indexOf groupBy)
    (ws.cols.indexOf aggCol) ws.cols.length
    (scanGroups (ws.grid.map (fun (row : List Cell) =>
      (row.getD (ws.cols.indexOf groupBy) emptyCell).value))) ws.grid hpw hwf
  refine ⟨⟨ws.cols, (scanGroups (ws.grid.map (fun (row : List Cell) =>
      (row.getD (ws.cols.indexOf groupBy) emptyCell).value))).foldr
        (fun grp acc => insertSubtotalRowP labelSuffix (ws.cols.indexOf groupBy)
          (ws.cols.indexOf aggCol) ws.cols.length acc grp) ws.grid⟩, ?_, ?_⟩
  · simp only [applySubtotals, hg, ha, if_true]
    rw [foldlM_insert_count_eq, List.foldl_reverse]
    rfl
  · intro gs hgs
    subst hgs
    refine ⟨scanGroups_length _ hnn hgrp, hlen, ?_, hjs⟩
    intro k hk
    refine ⟨hks k hk, ?_, ?_⟩
    · intro cell hcell
      rw [List.getD_eq_getElem?_getD, hks k hk, Option.getD_some] at hcell
      exact subtotalRow_bold_fill _ _ _ _ _ _ cell hcell
    · intro r hrr1 hrr2
      have hmem : (scanGroups (ws.grid.map (fun (row : List Cell) =>
          (row.getD (ws.cols.indexOf groupBy) emptyCell).value))).getD k defGrp
          ∈ scanGroups (ws.grid.map (fun (row : List Cell) =>
            (row.getD (ws.cols.indexOf groupBy) emptyCell).value)) := by
        rw [List.getD_eq_getElem _ _ hk]
        exact List.getElem_mem hk
      exact scanGroupsGo_name_correct
        (ws.grid.map (fun (row : List Cell) =>
          (row.getD (ws.cols.indexOf groupBy) emptyCell).value))
        (ws.grid.map (fun (row : List Cell) =>
          (row.getD (ws.cols.indexOf groupBy) emptyCell).value))
        2 2 Value.null hnn (by omega) (by omega) (by simp)
        (fun r h1 h2 => absurd h2 (by omega)) _ hmem r hrr1 hrr2

/-- C1 counterexample, two independent failures of the claim. (1) Label:
on the spec's exact scenario the single-sheet subtotal engine labels the
inserted row "A Subtotal", not the "A Count" the claim's scenario states.
(2) Null group: on a table whose group-by column holds one null value
(g = 1 distinct value), the scanner's `current_group is not None` guard
records no group, both engines return the sheet unchanged, and the
claimed rows + g = 2 data rows fail (the output keeps 1 row). -/
theorem subtotals_label_counterexample :
    (applySubtotalsSingle .count "Employer" "Trainer" exSubWs = some exSubOutSingle ∧
     ((exSubOutSingle.grid.getD 2 []).getD 0 emptyCell).value
       = Value.str "A Subtotal" ∧
     Value.str "A Subtotal" ≠ Value.str "A Count") ∧
    (applySubtotalsSingle .count "Employer" "Trainer" exSubNullWs = some exSubNullWs ∧
     applySubtotalsMulti .count "Employer" "Trainer" exSubNullWs = some exSubNullWs ∧
     exSubNullWs.grid.length = 1 ∧
     (exSubNullWs.grid.map (fun (row : List Cell) =>
       (row.getD (exSubNullWs.cols.indexOf "Employer") emptyCell).value)).toFinset.card
       = 1 ∧
     (1 : Nat) ≠ 1 + 1) := by
  exact ⟨⟨by decide, by decide, by decide⟩,
    ⟨by decide, by decide, by decide, by decide, by decide⟩⟩

/-- Witness for C1's amended claim on the spec scenario (all hypotheses
discharged concretely): the full characterisation at
Employer = [A, A, B], Trainer = [x, y, z] with the multi-sheet label. -/
theorem subtotals_structure_witness :
    ∃ out, applySubtotals " Count" .count "Employer" "Trainer" exSubWs = some out ∧
      ∀ gs, gs = scanGroups (exSubWs.grid.map (fun (row : List Cell) =>
          (row.getD (exSubWs.cols.indexOf "Employer") emptyCell).value)) →
        gs.length = (exSubWs.grid.map (fun (row : List Cell) =>
          (row.getD (exSubWs.cols.indexOf "Employer") emptyCell).value)).toFinset.card ∧
        out.grid.length = exSubWs.grid.length + gs.length ∧
        (∀ k, k < gs.length →
          out.grid[(gs.getD k defGrp).insertAt - 2 + k]? =
            some (subtotalRow " Count" exSubWs.cols.length
              (exSubWs.cols.indexOf "Employer") (exSubWs.cols.indexOf "Trainer")
              (gs.getD k defGrp).name
              (countVal exSubWs.grid (exSubWs.cols.indexOf "Trainer")
                (gs.getD k defGrp).startRow (gs.getD k defGrp).endRow)) ∧
          (∀ cell ∈ out.grid.getD ((gs.getD k defGrp).insertAt - 2 + k) [],
            cell.bold = true ∧ cell.fill = some "FFE0E0E0") ∧
          (∀ r, (gs.getD k defGrp).startRow ≤ r → r ≤ (gs.getD k defGrp).endRow →
            (exSubWs.grid.map (fun (row : List Cell) =>
              (row.getD (exSubWs.cols.indexOf "Employer") emptyCell).value)).getD
                (r - 2) Value.null = (gs.getD k defGrp).name)) ∧
        (∀ j, j < exSubWs.grid.length →
          out.grid[j + gs.countP (fun grp => decide (grp.insertAt - 2 ≤ j))]? =
            exSubWs.grid[j]?) :=
  subtotals_structure.1 " Count" "Employer" "Trainer" exSubWs
    (by decide) (by decide) (by decide) (by decide)

/-- Witness for C10: a null cell under the numeric '>' operator is a
non-match (and would match only under is_null), and the non-numeric string
"abc" pushed through '>' is a silent non-match. -/
theorem check_condition_null_safe_witness :
    (checkCondition ⟨2024, 5, 1⟩ Value.null
        (.dict ⟨CondOp.gt, .scalar (.num 3)⟩) = true ↔ CondOp.gt = CondOp.isNull) ∧
    checkCondition ⟨2024, 5, 1⟩ (.str "abc")
        (.dict ⟨CondOp.gt, .scalar (.num 3)⟩) = false :=
  ⟨check_condition_null_safe.1 ⟨2024, 5, 1⟩ Value.null ⟨CondOp.gt, .scalar (.num 3)⟩
      (by decide),
   check_condition_null_safe.2 ⟨2024, 5, 1⟩ "abc" (.num 3) CondOp.gt
      (Or.inl rfl) (by decide)⟩

end ReportGen
